import Mathlib

/-!
Verification development for the exv6 memory-management subsystem.

The definitions below are a shallow embedding of the C sources under
kernel/kalloc.c, kernel/vm.c, kernel/mmap.c and kernel/slab_alloc.c.
Machine integers are modelled as Nat with explicit reductions modulo
2^32 or 2^64 where C unsigned arithmetic can wrap.  A function that can
panic in C returns Option, with none standing for the panic.  The model
is sequential: each operation receives the id of the CPU it runs on, and
lock acquire/release pairs collapse to atomic state updates.

Constants that live in headers absent from the repository snapshot
(riscv.h, memlayout.h, param.h, defs.h) use the standard xv6 values,
which the specification also records: 4096-byte pages, Sv39 MAXVA,
KERNBASE = 0x80000000, PHYSTOP = KERNBASE + 128 MiB, NCPU = 8, and the
PTE flag bits V=1, R=2, W=4, X=8, U=16 plus the COW marker C=256.
The kernel-image end symbol `end` is a link-time value, so every
operation takes it as an explicit parameter `kend`.
-/

namespace ExV6

def PGSIZE : Nat := 4096
def NCPU : Nat := 8
def KERNBASE : Nat := 0x80000000
def PHYSTOP : Nat := KERNBASE + 128 * 1024 * 1024
def MAXVA : Nat := 2 ^ 38

/-- Wrap modulus of 64-bit unsigned arithmetic. -/
def U64 : Nat := 2 ^ 64

/-- Wrap modulus of 32-bit unsigned arithmetic. -/
def U32 : Nat := 2 ^ 32

/-- Number of entries of the kmem.refcnt array: (PHYSTOP - KERNBASE) / PGSIZE. -/
def REFCNT_LEN : Nat := (PHYSTOP - KERNBASE) / PGSIZE

/-- PGROUNDDOWN from riscv.h. -/
def pgrounddown (a : Nat) : Nat := a / PGSIZE * PGSIZE

/-- PGROUNDUP from riscv.h; the addition wraps in uint64. -/
def pgroundup (a : Nat) : Nat := pgrounddown ((a + PGSIZE - 1) % U64)

def PTE_V : Nat := 1
def PTE_R : Nat := 2
def PTE_W : Nat := 4
def PTE_X : Nat := 8
def PTE_U : Nat := 16
def PTE_C : Nat := 256

/-- PTE2PA: (pte >> 10) << 12. -/
def pte2pa (pte : Nat) : Nat := pte / 1024 * 4096

/-- PA2PTE: (pa >> 12) << 10. -/
def pa2pte (pa : Nat) : Nat := pa / 4096 * 1024

/-- PTE_FLAGS: pte & 0x3FF. -/
def pteFlags (pte : Nat) : Nat := pte % 1024

/-- Test a single PTE flag bit; `flag` is a power of two. -/
def pteHas (pte flag : Nat) : Bool := pte / flag % 2 == 1

/-- Physical byte memory. -/
abbrev Mem := Nat → Nat

/-- memset over a byte range. -/
def memFill (m : Mem) (dst n v : Nat) : Mem :=
  fun a => if dst ≤ a ∧ a < dst + n then v else m a

/-- memmove between physical ranges (the source ranges used never overlap
the destination in the modelled calls). -/
def memCopy (m : Mem) (dst src n : Nat) : Mem :=
  fun a => if dst ≤ a ∧ a < dst + n then m (src + (a - dst)) else m a

/-- memmove of a kernel buffer, given as a byte list, into physical memory. -/
def memWriteBytes (m : Mem) (dst : Nat) (n : Nat) (bs : List Nat) : Mem :=
  fun a => if dst ≤ a ∧ a < dst + n then bs.getD (a - dst) 0 else m a

/-- Machine state shared by the allocator and the VM layer.  freelist and
nfree model the per-CPU kmem shards; refcnt models the kmem.refcnt array
as a total function from the computed unsigned index (so an out-of-bounds
C access appears as an update at an index at or above REFCNT_LEN).  reads
and writes log the readi/writei calls issued to the file layer, newest
first, as (file, byte offset, byte count) and
(file, source va, byte offset, byte count). -/
structure MState where
  freelist : Nat → List Nat
  nfree : Nat → Nat
  refcnt : Nat → Nat
  mem : Mem
  reads : List (Nat × Nat × Nat)
  writes : List (Nat × Nat × Nat × Nat)

/-- kfree from kernel/kalloc.c.  none models the panic on a misaligned,
below-end, or at-or-above-PHYSTOP address; otherwise the page is filled
with the junk byte 1 and pushed on the freelist of the calling CPU. -/
def kfree (kend cpu pa : Nat) (st : MState) : Option MState :=
  if pa % PGSIZE ≠ 0 ∨ pa < kend ∨ PHYSTOP ≤ pa then none
  else some { st with
    mem := memFill st.mem pa PGSIZE 1
    freelist := Function.update st.freelist cpu (pa :: st.freelist cpu)
    nfree := Function.update st.nfree cpu ((st.nfree cpu + 1) % U64) }

/-- kalloc_refcnt_idx from kernel/kalloc.c.  The function returns a C
uint: for pa below the kernel end symbol it returns (uint)(-1), i.e.
U32 - 1; otherwise (PGROUNDDOWN(pa) - PGROUNDUP(end)) / PGSIZE computed
in uint64 and truncated to uint. -/
def kalloc_refcnt_idx (kend pa : Nat) : Nat :=
  if pa < kend then U32 - 1
  else (pgrounddown pa + U64 - pgroundup kend) % U64 / PGSIZE % U32

/-- kalloc_refcnt_add from kernel/kalloc.c.  The C guard `if (idx < 0)`
compares an unsigned idx and is therefore never taken, so the increment
happens for every address, with the sentinel index U32 - 1 for addresses
below the kernel end symbol. -/
def kalloc_refcnt_add (kend pa : Nat) (st : MState) : MState :=
  let idx := kalloc_refcnt_idx kend pa
  { st with refcnt := Function.update st.refcnt idx (st.refcnt idx + 1) }

/-- kalloc_refcnt_dec from kernel/kalloc.c.  As in kalloc_refcnt_add the
unsigned guard `idx < 0` is dead code.  none models the underflow panic;
when the count reaches zero the frame is handed to kfree. -/
def kalloc_refcnt_dec (kend cpu pa : Nat) (st : MState) : Option MState :=
  let idx := kalloc_refcnt_idx kend pa
  if st.refcnt idx = 0 then none
  else
    let st' := { st with refcnt := Function.update st.refcnt idx (st.refcnt idx - 1) }
    if st.refcnt idx - 1 = 0 then kfree kend cpu pa st' else some st'

/-- Scan step of kmem_steal: try each CPU index in order, popping the
head of the first freelist found non-empty. -/
def kmem_stealGo (st : MState) : List Nat → Option Nat × MState
  | [] => (none, st)
  | c :: cs =>
    match st.freelist c with
    | [] => kmem_stealGo st cs
    | r :: rest =>
      (some r, { st with
        freelist := Function.update st.freelist c rest
        nfree := Function.update st.nfree c ((st.nfree c + (U64 - 1)) % U64) })

/-- kmem_steal from kernel/kalloc.c: scan the CPUs from index 0 upward;
in the sequential model the unlocked probe and the locked re-check
coincide. -/
def kmem_steal (st : MState) : Option Nat × MState :=
  kmem_stealGo st (List.range NCPU)

/-- kalloc from kernel/kalloc.c: pop the head of the calling CPU
freelist, stealing from another CPU when it is empty; a frame that is
handed out is zero-filled and its refcount incremented. -/
def kalloc (kend cpu : Nat) (st : MState) : Option Nat × MState :=
  let p :=
    match st.freelist cpu with
    | r :: rest =>
      (some r, { st with
        freelist := Function.update st.freelist cpu rest
        nfree := Function.update st.nfree cpu ((st.nfree cpu + (U64 - 1)) % U64) })
    | [] => kmem_steal st
  match p with
  | (none, st1) => (none, st1)
  | (some r, st1) =>
    let st2 := { st1 with mem := memFill st1.mem r PGSIZE 0 }
    (some r, kalloc_refcnt_add kend r st2)

/-- A page table projected to its leaf level: a map from virtual page
index (va / PGSIZE) to the raw 64-bit value of the leaf PTE.  none means
walk(pt, va, 0) returns a null pointer (an interior level is missing);
some pte means the leaf slot exists, where pte itself may be 0 or have
the V bit clear.  Interior page-table pages are abstracted away: the
kalloc calls walk performs with alloc = 1 for missing directories — their
freelist pops, their refcount 0-to-1 increments, and the -1 return of
mappages when such a kalloc fails — have no counterpart at this level.
This projection is therefore only used for operations that never extend
the tree (walkaddr, uvmunmap, copyout, the fault handlers, the untouched
resize paths); the full tree with walk's allocation effects is the
structure PTab below, and uvmcopy is modelled only over that layer. -/
abbrev PT := Nat → Option Nat

/-- walk from kernel/vm.c with alloc = 0; the outer none models the
panic for va at or above MAXVA, the inner Option the null return. -/
def walkP (pt : PT) (va : Nat) : Option (Option Nat) :=
  if MAXVA ≤ va then none else some (pt (va / PGSIZE))

/-- walkaddr from kernel/vm.c: 0 unless a valid user leaf exists. -/
def walkaddr (pt : PT) (va : Nat) : Nat :=
  if MAXVA ≤ va then 0
  else match pt (va / PGSIZE) with
    | none => 0
    | some pte =>
      if pteHas pte PTE_V then
        if pteHas pte PTE_U then pte2pa pte else 0
      else 0

/-- One iteration of the mappages loop at virtual page i: panic (none)
for va at or above MAXVA (from walk) or when the leaf already has V set
(remap); otherwise install PA2PTE(pa) | perm | PTE_V. -/
def mappagesPut (pt : PT) (i pa perm : Nat) : Option PT :=
  if MAXVA ≤ PGSIZE * i then none
  else match pt i with
    | some pte =>
      if pteHas pte PTE_V then none
      else some (Function.update pt i (some (pa2pte pa ||| perm ||| PTE_V)))
    | none => some (Function.update pt i (some (pa2pte pa ||| perm ||| PTE_V)))

def mappagesGo (pt : PT) (i pa perm : Nat) : Nat → Option PT
  | 0 => some pt
  | n + 1 =>
    match mappagesPut pt i pa perm with
    | none => none
    | some pt' => mappagesGo pt' (i + 1) (pa + PGSIZE) perm n

/-- mappages from kernel/vm.c projected to the leaf level.  none models
the panics (size zero, va past MAXVA, remap).  This projection drops the
state effects of walk(alloc = 1) — the kalloc of interior page-table
pages, their freelist pops and refcount increments, and the -1 return on
a failed kalloc — so it is sound only where the leaf directories already
exist or where those effects are out of scope; mappagesA below is the
faithful version over PTab carrying all of them. -/
def mappages (pt : PT) (va size pa perm : Nat) : Option PT :=
  if size = 0 then none
  else
    let a := pgrounddown va
    let last := pgrounddown ((va + size - 1) % U64)
    mappagesGo pt (a / PGSIZE) pa perm ((last + U64 - a) % U64 / PGSIZE + 1)

/-- One iteration of the uvmunmap loop at virtual page i: skip a missing
or invalid leaf, panic on a leaf whose flags are exactly V, otherwise
optionally refcnt-decrement the target frame and zero the leaf. -/
def uvmunmapStep (kend cpu : Nat) (pt : PT) (st : MState) (i : Nat) (doFree : Bool) :
    Option (PT × MState) :=
  if MAXVA ≤ PGSIZE * i then none
  else match pt i with
    | none => some (pt, st)
    | some pte =>
      if pteHas pte PTE_V = false then some (pt, st)
      else if pteFlags pte = PTE_V then none
      else if doFree then
        match kalloc_refcnt_dec kend cpu (pte2pa pte) st with
        | none => none
        | some st' => some (Function.update pt i (some 0), st')
      else some (Function.update pt i (some 0), st)

def uvmunmapGo (kend cpu : Nat) (pt : PT) (st : MState) (i : Nat) (doFree : Bool) :
    Nat → Option (PT × MState)
  | 0 => some (pt, st)
  | n + 1 =>
    match uvmunmapStep kend cpu pt st i doFree with
    | none => none
    | some (pt', st') => uvmunmapGo kend cpu pt' st' (i + 1) doFree n

/-- uvmunmap from kernel/vm.c over the pages from PGROUNDDOWN(va) to
PGROUNDDOWN(va + size - 1) inclusive (uint64 arithmetic). -/
def uvmunmap (kend cpu : Nat) (pt : PT) (va size : Nat) (doFree : Bool) (st : MState) :
    Option (PT × MState) :=
  let a := pgrounddown va
  let last := pgrounddown ((va + size + (U64 - 1)) % U64)
  uvmunmapGo kend cpu pt st (a / PGSIZE) doFree ((last + U64 - a) % U64 / PGSIZE + 1)

/-- Number of pages visited by a loop stepping PGSIZE while below sz. -/
def npages (sz : Nat) : Nat := (sz + PGSIZE - 1) / PGSIZE

/-- COW leaf flags used by uvmcopy: (PTE_FLAGS(pte) & ~PTE_W) | PTE_C,
with ~ taken at the C int width. -/
def cowFlags (pte : Nat) : Nat := (pteFlags pte &&& (U32 - 1 - PTE_W)) ||| PTE_C


/-- uvmdealloc from kernel/vm.c: shrink from oldsz to newsz, unmapping
with frame freeing; returns oldsz unchanged when newsz >= oldsz. -/
def uvmdealloc (kend cpu : Nat) (pt : PT) (oldsz newsz : Nat) (st : MState) :
    Option (Nat × PT × MState) :=
  if oldsz ≤ newsz then some (oldsz, pt, st)
  else
    let newup := pgroundup newsz
    if newup < pgroundup oldsz then
      match uvmunmap kend cpu pt newup (oldsz - newup) true st with
      | none => none
      | some (pt', st') => some (newsz, pt', st')
    else some (newsz, pt, st)

def uvmallocGo (kend cpu : Nat) (pt : PT) (st : MState) (oldszR a newsz : Nat) :
    Nat → Option (Nat × PT × MState)
  | 0 => some (newsz, pt, st)
  | n + 1 =>
    match kalloc kend cpu st with
    | (none, st1) =>
      match uvmdealloc kend cpu pt a oldszR st1 with
      | none => none
      | some (_, pt', st') => some (0, pt', st')
    | (some memp, st1) =>
      let st2 := { st1 with mem := memFill st1.mem memp PGSIZE 0 }
      match mappages pt a PGSIZE memp (PTE_W ||| PTE_X ||| PTE_R ||| PTE_U) with
      | none => none
      | some pt' => uvmallocGo kend cpu pt' st2 oldszR (a + PGSIZE) newsz n

/-- uvmalloc from kernel/vm.c: grow from oldsz to newsz with eagerly
allocated zeroed pages, unwinding through uvmdealloc and returning 0 on
frame exhaustion; returns oldsz unchanged when newsz < oldsz. -/
def uvmalloc (kend cpu : Nat) (pt : PT) (oldsz newsz : Nat) (st : MState) :
    Option (Nat × PT × MState) :=
  if newsz < oldsz then some (oldsz, pt, st)
  else
    let oldszR := pgroundup oldsz
    uvmallocGo kend cpu pt st oldszR oldszR newsz (npages (newsz - oldszR))

/-- Post-COW leaf flags used by copyout and the fault handler:
(PTE_FLAGS(pte) | PTE_W) & ~PTE_C, with ~ taken at the C int width. -/
def uncowFlags (pte : Nat) : Nat := (pteFlags pte ||| PTE_W) &&& (U32 - 1 - PTE_C)

/-- copyout from kernel/vm.c, by iterations of its while loop.  The fuel
argument only bounds the recursion; copyout passes len, which dominates
the iteration count because every iteration copies at least one byte.
When the leaf is absent the page is lazily allocated; when the leaf is
valid, non-writable and COW the shared frame is replaced by a fresh
copy, except that a failed kalloc in that branch jumps to the plain
byte-copy (the goto end in the source) instead of returning -1. -/
def copyoutGo (kend cpu : Nat) : Nat → PT → Nat → List Nat → Nat → MState →
    Option (Int × PT × MState)
  | 0, pt, _, _, len, st => if len = 0 then some (0, pt, st) else none
  | fuel + 1, pt, dstva, src, len, st =>
    if len = 0 then some (0, pt, st)
    else
      let va0 := pgrounddown dstva
      if MAXVA < va0 then some (-1, pt, st)
      else
        match walkP pt va0 with
        | none => none
        | some wres =>
          let copyTail := fun (pa0 : Nat) (ptc : PT) (stc : MState) =>
            let n := min (PGSIZE - (dstva - va0)) len
            let stc' :=
              if pa0 ≠ 0 then
                { stc with mem := memWriteBytes stc.mem (pa0 + (dstva - va0)) n src }
              else stc
            copyoutGo kend cpu fuel ptc (va0 + PGSIZE) (src.drop n) (len - n) stc'
          match wres with
          | none =>
            match kalloc kend cpu st with
            | (none, st1) => some (-1, pt, st1)
            | (some phys, st1) =>
              match mappages pt va0 PGSIZE phys (PTE_W ||| PTE_R ||| PTE_X ||| PTE_U) with
              | none => none
              | some pt' => copyTail phys pt' st1
          | some pte =>
            let pa0 := walkaddr pt va0
            if pteHas pte PTE_V && !pteHas pte PTE_W && pteHas pte PTE_C then
              match kalloc kend cpu st with
              | (none, st1) => copyTail pa0 pt st1
              | (some phys, st1) =>
                let st2 := { st1 with mem := memCopy st1.mem phys pa0 PGSIZE }
                match uvmunmap kend cpu pt va0 PGSIZE true st2 with
                | none => none
                | some (pt1, st3) =>
                  match mappages pt1 va0 PGSIZE phys (uncowFlags pte) with
                  | none => none
                  | some pt2 => copyTail phys pt2 st3
            else copyTail pa0 pt st

/-- copyout entry point; fuel is instantiated with len (see copyoutGo). -/
def copyout (kend cpu : Nat) (pt : PT) (dstva : Nat) (src : List Nat) (len : Nat)
    (st : MState) : Option (Int × PT × MState) :=
  copyoutGo kend cpu len pt dstva src len st

def PROT_READ : Nat := 0x1
def PROT_WRITE : Nat := 0x10
def MAP_SHARED : Nat := 0x1
def MAP_PRIVATE : Nat := 0x10
def MMAP_INFO_MAX : Nat := 64

/-- mmap_info from kernel/mmap.h; the file handle is a plain identifier
and the owning-process back pointer is implicit (the operations receive
the process).  num_pages is a C int and can go negative. -/
structure MMapInfo where
  used : Bool
  vaddr : Nat
  len : Nat
  prot : Nat
  flags : Nat
  file : Nat
  off : Nat
  numPages : Int

instance : Inhabited MMapInfo := ⟨⟨false, 0, 0, 0, 0, 0, 0, 0⟩⟩

/-- The slice of struct proc the memory subsystem uses: root page table,
address-space size, and the mmap_regions array (a list of
MMAP_INFO_MAX slots). -/
structure Proc where
  pagetable : PT
  sz : Nat
  mmap_regions : List MMapInfo

/-- mmap_info_get from kernel/mmap.c: index of the first used slot whose
range [vaddr, vaddr + len) (uint64 arithmetic) contains the address. -/
def mmap_info_get (p : Proc) (vaddr : Nat) : Option Nat :=
  p.mmap_regions.findIdx? (fun info =>
    info.used && decide (info.vaddr ≤ vaddr) &&
      decide (vaddr < (info.vaddr + info.len) % U64))

/-- mmap_pagefault_handle from kernel/mmap.c.  readi is not part of the
repository snapshot; Modelled from the spec: readi(ip, 0, dst, off, n)
reads n bytes of the file at byte offset off into dst inside an
ilock/iunlock bracket and the model records the request in the reads log
and treats it as succeeding.  Note the source computes the file offset
as min(PGSIZE, vaddr - info.vaddr), saturating at one page. -/
def mmap_pagefault_handle (_kend _cpu : Nat) (info : MMapInfo) (pt : PT)
    (vaddr phys : Nat) (st : MState) : Option (Int × PT × MState) :=
  let perms := PTE_U ||| (if info.prot &&& PROT_READ ≠ 0 then PTE_R else 0) |||
    (if info.prot &&& PROT_WRITE ≠ 0 then PTE_W else 0)
  let offset := min PGSIZE ((vaddr + U64 - info.vaddr) % U64)
  let len := min PGSIZE ((info.vaddr + info.len + U64 - vaddr) % U64)
  let st1 := { st with reads := (info.file, offset, len) :: st.reads }
  match mappages pt vaddr PGSIZE phys perms with
  | none => none
  | some pt' => some (0, pt', st1)

/-- uvm_handle_page_fault from kernel/vm.c: reject past-sz and
stack-guard faults, resolve COW write faults, and lazily allocate the
rest, delegating to mmap_pagefault_handle for pages inside a live
mapping slot. -/
def uvm_handle_page_fault (kend cpu : Nat) (p : Proc) (fault_va : Nat) (st : MState) :
    Option (Int × Proc × MState) :=
  if p.sz ≤ fault_va then some (-1, p, st)
  else
    let vm_pg := pgrounddown fault_va
    match walkP p.pagetable vm_pg with
    | none => none
    | some wres =>
      let lazyPath : Option (Int × Proc × MState) :=
        match kalloc kend cpu st with
        | (none, st1) => some (-1, p, st1)
        | (some phys, st1) =>
          let st2 := { st1 with mem := memFill st1.mem phys PGSIZE 0 }
          match mmap_info_get p vm_pg with
          | some idx =>
            match mmap_pagefault_handle kend cpu (p.mmap_regions.getD idx default)
                p.pagetable vm_pg phys st2 with
            | none => none
            | some (r, pt', st3) => some (r, { p with pagetable := pt' }, st3)
          | none =>
            match mappages p.pagetable vm_pg PGSIZE phys
                (PTE_W ||| PTE_X ||| PTE_R ||| PTE_U) with
            | none => none
            | some pt' => some (0, { p with pagetable := pt' }, st2)
      match wres with
      | none => lazyPath
      | some pte =>
        if pteHas pte PTE_V && !pteHas pte PTE_U then some (-1, p, st)
        else if pteHas pte PTE_V && !pteHas pte PTE_W && pteHas pte PTE_C then
          match kalloc kend cpu st with
          | (none, st1) => some (-1, p, st1)
          | (some phys, st1) =>
            let st2 := { st1 with mem := memCopy st1.mem phys (pte2pa pte) PGSIZE }
            match uvmunmap kend cpu p.pagetable vm_pg PGSIZE true st2 with
            | none => none
            | some (pt1, st3) =>
              match mappages pt1 vm_pg PGSIZE phys (uncowFlags pte) with
              | none => none
              | some pt2 => some (0, { p with pagetable := pt2 }, st3)
        else lazyPath

/-- Loop body of sys_munmap from kernel/mmap.c, one page per iteration.
writei is not part of the repository snapshot; Modelled from the spec:
writei(ip, 1, srcva, off, n) writes n bytes taken from user address
srcva to the file at byte offset off inside a transaction, and the model
records the request in the writes log and treats it as succeeding.  The
source computes the write-back amount as
min(PGSIZE, info->len - vaddr), a length minus a virtual address in
uint64 arithmetic. -/
def sys_munmapGo (kend cpu : Nat) (p : Proc) (idx : Nat) (st : MState)
    (vaddr i : Nat) : Nat → Option (Int × Proc × MState)
  | 0 => some (0, p, st)
  | n + 1 =>
    let info := p.mmap_regions.getD idx default
    let st1 :=
      if info.flags &&& MAP_SHARED ≠ 0 then
        { st with writes :=
            (info.file, vaddr, i, min PGSIZE ((info.len + U64 - vaddr) % U64)) :: st.writes }
      else st
    match uvmunmap kend cpu p.pagetable vaddr PGSIZE true st1 with
    | none => none
    | some (pt', st2) =>
      let np := info.numPages - 1
      let info' := { info with numPages := np,
                               used := if np = 0 then false else info.used }
      let p' := { p with pagetable := pt', mmap_regions := p.mmap_regions.set idx info' }
      sys_munmapGo kend cpu p' idx st2 (vaddr + PGSIZE) (i + PGSIZE) n

/-- sys_munmap from kernel/mmap.c with the syscall arguments already
collected: page-align addr, find the containing slot, then per page
write back SHARED contents, unmap with freeing, and decrement num_pages,
releasing the slot when it reaches 0. -/
def sys_munmap (kend cpu : Nat) (p : Proc) (addr len : Nat) (st : MState) :
    Option (Int × Proc × MState) :=
  let vaddr := pgrounddown addr
  match mmap_info_get p vaddr with
  | none => some (-1, p, st)
  | some idx =>
    if (p.mmap_regions.getD idx default).numPages = 0 then some (-1, p, st)
    else sys_munmapGo kend cpu p idx st vaddr 0 (npages len)

/-- SLAB_LIM lives in a header absent from the snapshot; Modelled from
the spec: SLAB_LIMIT equals PAGE_SIZE. -/
def SLAB_LIM : Nat := PGSIZE

/-- Read a C int (4 bytes, little endian, two-complement) from byte
memory. -/
def readInt (m : Mem) (a : Nat) : Int :=
  let v := m a % 256 + m (a + 1) % 256 * 256 + m (a + 2) % 256 * 65536 +
    m (a + 3) % 256 * 16777216
  if v < 2 ^ 31 then (v : Int) else (v : Int) - 2 ^ 32

/-- Write a C int (4 bytes, little endian, two-complement) to byte
memory. -/
def writeInt (m : Mem) (a : Nat) (v : Int) : Mem :=
  let u := (v % (2 ^ 32 : Int)).toNat
  fun x =>
    if x = a then u % 256
    else if x = a + 1 then u / 256 % 256
    else if x = a + 2 then u / 65536 % 256
    else if x = a + 3 then u / 16777216 % 256
    else m x

/-- struct kmem_cache: the struct declaration lives in a header absent
from the snapshot; Modelled from the spec and the uses in
kernel/slab_alloc.c: object size align, backing page pointer slab
(0 = null), signed occupancy size (compared against 0 with <), capacity
len, and doubly-linked prev/next given as indices into the KMEM_CACHES
arena (none = null pointer). -/
structure CacheRec where
  align : Nat
  slab : Nat
  size : Int
  len : Nat
  prev : Option Nat
  next : Option Nat

instance : Inhabited CacheRec := ⟨⟨0, 0, 0, 0, none, none⟩⟩

/-- Slab-allocator global state: the KMEM_CACHES arena and the
KMEM_CACHE_FLAGS bitmap, both as total functions over the index. -/
structure SlabState where
  caches : Nat → CacheRec
  flags : Nat → Bool

/-- Outcome of the scan loop of kmem_cache_free: whether obj sits at a
slot boundary ptr = slab + k * align with ptr < slab + SLAB_LIM (align
is positive for caches made by kmem_cache_create). -/
def slabFound (slab align obj : Nat) : Bool :=
  decide (slab ≤ obj) && decide (obj - slab < SLAB_LIM) &&
    decide ((obj - slab) % align = 0)

/-- kmem_cache_free from kernel/slab_alloc.c.  The C caller passes the
address of its handle; the model takes the handle value cp and returns
the possibly-rewritten handle.  fuel bounds the next-chain recursion
(none on exhaustion; the chains in the theorems are shorter than the
fuel passed), and none also models the panic inside kalloc_refcnt_dec.
The release condition is taken verbatim from the source:
cache->size < 0 after the decrement, not == 0. -/
def kmem_cache_free (kend cpu : Nat) : Nat → Nat → Nat → SlabState → MState →
    Option (Nat × SlabState × MState)
  | 0, _, _, _, _ => none
  | fuel + 1, cp, obj, ss, st =>
    let cache := ss.caches cp
    let afterLoop : Option (Nat × SlabState × MState) :=
      if slabFound cache.slab cache.align obj then
        let st1 := { st with mem := writeInt st.mem obj (-1) }
        let size' := cache.size - 1
        let cache1 := { cache with size := size' }
        let ss1 := { ss with caches := Function.update ss.caches cp cache1 }
        if size' < 0 then
          match kalloc_refcnt_dec kend cpu cache.slab st1 with
          | none => none
          | some st2 =>
            let ss2 := { ss1 with flags := Function.update ss1.flags cp false }
            match cache.next, cache.prev with
            | some nx, some pv =>
              let pvRec := { ss2.caches pv with next := some nx }
              let ss3 := { ss2 with caches := Function.update ss2.caches pv pvRec }
              let nxRec := { ss3.caches nx with prev := some pv }
              let ss4 := { ss3 with caches := Function.update ss3.caches nx nxRec }
              some (cp, ss4, st2)
            | some nx, none => some (nx, ss2, st2)
            | none, _ => some (cp, ss2, st2)
        else some (cp, ss1, st1)
      else some (cp, ss, st)
    match afterLoop with
    | none => none
    | some (handle, ss', st') =>
      match (ss'.caches cp).next with
      | none => some (handle, ss', st')
      | some nx =>
        match kmem_cache_free kend cpu fuel nx obj ss' st' with
        | none => none
        | some (newNext, ss'', st'') =>
          let cpRec := { ss''.caches cp with next := some newNext }
          some (handle, { ss'' with caches := Function.update ss''.caches cp cpRec }, st'')

/-- First refcounted frame: PGROUNDUP(end), then every PGSIZE. -/
def frameAt (kend i : Nat) : Nat := pgroundup kend + PGSIZE * i

/-- Number of refcounted frames below PHYSTOP. -/
def nframes (kend : Nat) : Nat := (PHYSTOP - pgroundup kend) / PGSIZE

/-- Whether a leaf PTE value is live (V set) and targets frame f. -/
def pteLiveAt (o : Option Nat) (f : Nat) : Bool :=
  match o with
  | none => false
  | some pte => pteHas pte PTE_V && decide (pte2pa pte = f)

/-- Number of live leaf PTEs of one page table targeting f, over the
first b virtual pages. -/
def pageCount (b : Nat) (pt : PT) (f : Nat) : Nat :=
  ((List.range b).filter (fun i => pteLiveAt (pt i) f)).length

/-- Number of live leaf PTEs targeting f across a collection of page
tables. -/
def leafCount (b : Nat) (pts : List PT) (f : Nat) : Nat :=
  (pts.map (fun pt => pageCount b pt f)).sum

/-- Number of occurrences of f across all CPU freelists. -/
def freelistCount (st : MState) (f : Nat) : Nat :=
  ((List.range NCPU).map (fun c => (st.freelist c).count f)).sum

/-- Refcount of frame f as the code stores it, through the computed
index. -/
def refcntOf (kend : Nat) (st : MState) (f : Nat) : Nat :=
  st.refcnt (kalloc_refcnt_idx kend f)

/-- P1 exactly as the claim states it, with the leaf census truncated at
b virtual pages per table: every refcounted frame has as many live leaf
PTEs across the tables as its stored refcount, and refcount 0 holds iff
the frame sits on exactly one CPU freelist. -/
def InvClaim (kend b : Nat) (st : MState) (pts : List PT) : Prop :=
  ∀ i < nframes kend,
    leafCount b pts (frameAt kend i) = refcntOf kend st (frameAt kend i) ∧
    (refcntOf kend st (frameAt kend i) = 0 ↔ freelistCount st (frameAt kend i) = 1)


/-- Well-formedness of a page table towards frames: every live leaf
targets a refcounted frame (at or past PGROUNDUP(end), below PHYSTOP). -/
def ptFramesOk (kend : Nat) (pt : PT) : Prop :=
  ∀ i pte, pt i = some pte → pteHas pte PTE_V = true →
    pgroundup kend ≤ pte2pa pte ∧ pte2pa pte < PHYSTOP

instance instDecInvClaim (kend b : Nat) (st : MState) (pts : List PT) :
    Decidable (InvClaim kend b st pts) := by
  unfold InvClaim
  infer_instance


/-- A concrete machine state used by witnesses and counterexamples: all
freelists empty, all refcounts zero, zeroed memory, empty logs. -/
def st0 : MState := ⟨fun _ => [], fun _ => 0, fun _ => 0, fun _ => 0, [], []⟩

/-- Witness state: CPU 2 holds one free frame, every other list is
empty. -/
def stealW : MState :=
  ⟨fun c => if c = 2 then [0x80005000] else [], fun _ => 0, fun _ => 0, fun _ => 0, [], []⟩

/-- Witness state: CPU 1 holds two free frames. -/
def headW : MState :=
  ⟨fun c => if c = 1 then [0x80007000, 0x80008000] else [], fun _ => 0, fun _ => 0,
   fun _ => 0, [], []⟩

/-- Witness process: page 1 carries a valid, non-user leaf (the shape
of the stack guard page); two pages of address space; no mmap slots. -/
def guardP : Proc := ⟨fun i => if i = 1 then some 1 else none, 0x2000, []⟩

/-- COW page table for the copyout counterexample: virtual page 3 maps
frame 0x80002000 with V, R, U and C set and W clear (275 = 1+2+16+256). -/
def c6pt : PT := fun i => if i = 3 then some (pa2pte 0x80002000 + 275) else none

/-- Machine state for the copyout counterexample: every freelist empty,
the shared frame at refcount-index 1 has refcount 2, every memory byte
reads 7. -/
def c6st : MState :=
  ⟨fun _ => [], fun _ => 0, fun i => if i = 1 then 2 else 0, fun _ => 7, [], []⟩

/-- Mapping slot for the mmap-fault counterexample: a live readable
private region of three pages starting at va 0x5000. -/
def c4info : MMapInfo := ⟨true, 0x5000, 0x3000, PROT_READ, MAP_PRIVATE, 5, 0, 3⟩

/-- Page table for the munmap counterexample: pages 5 and 6 map the
frames 0x80002000 and 0x80003000 with V, R, W, U (23 = 1+2+4+16). -/
def c5pt : PT := fun i =>
  if i = 5 then some (pa2pte 0x80002000 + 23)
  else if i = 6 then some (pa2pte 0x80003000 + 23) else none

/-- Process for the munmap counterexample: one SHARED slot covering
[0x5000, 0x6800), both pages mapped. -/
def c5p : Proc := ⟨c5pt, 0x6800, [⟨true, 0x5000, 0x1800, 0x11, MAP_SHARED, 5, 0, 2⟩]⟩

/-- Machine state for the munmap counterexample: the two mapped frames
have refcount 1. -/
def c5st : MState :=
  ⟨fun _ => [], fun _ => 0, fun i => if i = 1 ∨ i = 2 then 1 else 0, fun _ => 0, [], []⟩

/-- Slab arena for the drain counterexample: a single cache at index 0
with object size 64, backing frame 0x80002000, occupancy 1, no
neighbors. -/
def c3ss : SlabState :=
  ⟨fun i => if i = 0 then ⟨64, 0x80002000, 1, 64, none, none⟩ else default,
   fun i => i == 0⟩

/-- Machine state for the drain counterexample: the backing frame has
refcount 1. -/
def c3st : MState :=
  ⟨fun _ => [], fun _ => 0, fun i => if i = 1 then 1 else 0, fun _ => 0, [], []⟩

/-- State for the refcount-invariant counterexample: the end symbol one
page below PHYSTOP leaves exactly one refcounted frame, which is free
(refcount 0) and sits alone on the CPU-0 freelist; no page tables
exist. -/
def c1st : MState :=
  ⟨fun c => if c = 0 then [0x87FFF000] else [], fun _ => 0, fun _ => 0, fun _ => 0, [], []⟩

/-- The leaf PTE value uvmcopy installs on both sides for a copied
page: PA2PTE(PTE2PA(pte)) | ((PTE_FLAGS(pte) & ~W) | C) | V. -/
def mkCow (pte : Nat) : Nat := pa2pte (pte2pa pte) ||| cowFlags pte ||| PTE_V


/-- Number of slots below m at which the slot map g holds frame f. -/
def optCount (m : Nat) (g : Nat → Option Nat) (f : Nat) : Nat :=
  ((List.range m).filter (fun i => g i == some f)).length

/-- A user page table in the faithful model of the Sv39 tree: the
physical frame of the root directory, the level-1 directories the root
points to (l1, keyed by the root slot index va >> 30), the level-0
leaf directories (l0, keyed by va >> 21) and the stored leaf entries
(leaf, keyed by the virtual page number va >> 12, value 0 for an empty
slot of a zeroed directory frame).  The 512 PTE values held inside a
directory frame are carried by these fields instead of st.mem; the
frames themselves are allocated from the page allocator through kalloc
exactly as the code does, so their freelist and refcount effects are
part of the machine state. -/
structure PTab where
  root : Nat
  l1 : Nat → Option Nat
  l0 : Nat → Option Nat
  leaf : Nat → Nat

/-- The level-0 directory reached for slot j: present only when the
level-1 directory holding its parent entry is itself present. -/
def l0At (tb : PTab) (j : Nat) : Option Nat :=
  if (tb.l1 (j / 512)).isSome then tb.l0 j else none

/-- The leaf slot walk(tb, PGSIZE * p, 0) reaches: none when an
interior directory on the path is missing (walk returns a null
pointer), otherwise the stored value, which may be 0 or lack V. -/
def leafAtD (tb : PTab) (p : Nat) : Option Nat :=
  if (l0At tb (p / 512)).isSome then some (tb.leaf p) else none

/-- Number of root slots covering the first b virtual pages. -/
def rootSlots (b : Nat) : Nat := (b + 512 * 512 - 1) / (512 * 512)

/-- Number of leaf-directory slots covering the first b virtual pages. -/
def l0Slots (b : Nat) : Nat := (b + 511) / 512

/-- Directory frames of one table at frame f, censused over the first b
virtual pages: the root, the level-1 directories reached from the root
slots covering [0, b), and the level-0 directories reached at the slots
covering [0, b). -/
def dirCount (b : Nat) (tb : PTab) (f : Nat) : Nat :=
  (if tb.root = f then 1 else 0) +
  optCount (rootSlots b) tb.l1 f +
  optCount (l0Slots b) (l0At tb) f

/-- Live leaf PTEs targeting f across a collection of faithful page
tables, censused over the first b virtual pages of each. -/
def leafCountD (b : Nat) (tbs : List PTab) (f : Nat) : Nat :=
  (tbs.map (fun tb => pageCount b (leafAtD tb) f)).sum

/-- Directory frames at f across a collection of faithful page tables. -/
def dirCountAll (b : Nat) (tbs : List PTab) (f : Nat) : Nat :=
  (tbs.map (fun tb => dirCount b tb f)).sum

/-- The refcount-integrity invariant over the faithful layer: for every
refcounted frame, the live leaf PTEs targeting it plus the directory
frames at it (page-table pages hold refcount 1 with no leaf pointing at
them) equal its refcount entry, and a frame with refcount 0 occurs
exactly once across the CPU freelists while a frame with positive
refcount does not occur at all. -/
def InvD (kend b : Nat) (st : MState) (tbs : List PTab) : Prop :=
  ∀ i < nframes kend,
    leafCountD b tbs (frameAt kend i) + dirCountAll b tbs (frameAt kend i) =
      refcntOf kend st (frameAt kend i) ∧
    freelistCount st (frameAt kend i) =
      (if refcntOf kend st (frameAt kend i) = 0 then 1 else 0)

/-- Every frame sitting on a CPU freelist is a page-aligned frame of
the refcounted range, as kfree guarantees. -/
def freelistsOk (kend : Nat) (st : MState) : Prop :=
  ∀ c < NCPU, ∀ pa ∈ st.freelist c,
    pa % PGSIZE = 0 ∧ pgroundup kend ≤ pa ∧ pa < PHYSTOP

/-- Number of pages in [i, i+n) whose leaf in pt is live and targets
frame f. -/
def liveAdds (pt : PT) (i n f : Nat) : Nat :=
  ((List.range' i n).filter (fun p => pteLiveAt (pt p) f)).length

/-- A page-aligned frame of the refcounted range. -/
def validFrame (kend f : Nat) : Prop :=
  f % PGSIZE = 0 ∧ pgroundup kend ≤ f ∧ f < PHYSTOP

/-- One allocation event as the invariant sees it: frame d is popped
off the head of one CPU freelist and its refcount entry rises by one. -/
def PopEvent (kend : Nat) (st st1 : MState) (d : Nat) : Prop :=
  ∃ c, c < NCPU ∧ st.freelist c = d :: st1.freelist c ∧
    (∀ c2, c2 ≠ c → st1.freelist c2 = st.freelist c2) ∧
    st1.refcnt = Function.update st.refcnt (kalloc_refcnt_idx kend d)
      (st.refcnt (kalloc_refcnt_idx kend d) + 1)

/-- walk from kernel/vm.c with alloc = 1, down to the leaf slot.  A
missing directory is allocated with kalloc exactly as the code does:
the frame is popped off a freelist, zero-filled (kalloc and the memset
in walk, so the new directory's slots read as empty) and its refcount
raised by the kalloc_refcnt_add inside kalloc.  The Bool is false when
walk returns 0 because a kalloc failed, keeping the directories already
allocated; none models the panic for va at or above MAXVA. -/
def walkAlloc (kend cpu : Nat) (tb : PTab) (va : Nat) (st : MState) :
    Option (Bool × PTab × MState) :=
  if MAXVA ≤ va then none
  else
    let p := va / PGSIZE
    match tb.l1 (p / 512 / 512) with
    | some _ =>
      match tb.l0 (p / 512) with
      | some _ => some (true, tb, st)
      | none =>
        match kalloc kend cpu st with
        | (none, st1) => some (false, tb, st1)
        | (some d, st1) =>
          some (true,
            { tb with
                l0 := Function.update tb.l0 (p / 512) (some d)
                leaf := fun q => if q / 512 = p / 512 then 0 else tb.leaf q },
            st1)
    | none =>
      match kalloc kend cpu st with
      | (none, st1) => some (false, tb, st1)
      | (some d1, st1) =>
        let tb1 : PTab :=
          { tb with
              l1 := Function.update tb.l1 (p / 512 / 512) (some d1)
              l0 := fun j => if j / 512 = p / 512 / 512 then none else tb.l0 j }
        match kalloc kend cpu st1 with
        | (none, st2) => some (false, tb1, st2)
        | (some d0, st2) =>
          some (true,
            { tb1 with
                l0 := Function.update tb1.l0 (p / 512) (some d0)
                leaf := fun q => if q / 512 = p / 512 then 0 else tb.leaf q },
            st2)

/-- One iteration of the mappages loop in the faithful model at leaf
slot i: run walk with alloc = 1; return -1 (false) when walk could not
allocate a directory, keeping the directories it did allocate; panic
(none) on a leaf that already has V set (remap); else install
PA2PTE(pa) | perm | PTE_V. -/
def mappagesPutA (kend cpu : Nat) (tb : PTab) (i pa perm : Nat) (st : MState) :
    Option (Bool × PTab × MState) :=
  match walkAlloc kend cpu tb (PGSIZE * i) st with
  | none => none
  | some (false, tb1, st1) => some (false, tb1, st1)
  | some (true, tb1, st1) =>
    if pteHas (tb1.leaf i) PTE_V then none
    else some (true,
      { tb1 with leaf := Function.update tb1.leaf i (pa2pte pa ||| perm ||| PTE_V) },
      st1)

def mappagesGoA (kend cpu : Nat) : PTab → MState → Nat → Nat → Nat → Nat →
    Option (Bool × PTab × MState)
  | tb, st, _, _, _, 0 => some (true, tb, st)
  | tb, st, i, pa, perm, n + 1 =>
    match mappagesPutA kend cpu tb i pa perm st with
    | none => none
    | some (false, tb1, st1) => some (false, tb1, st1)
    | some (true, tb1, st1) =>
      mappagesGoA kend cpu tb1 st1 (i + 1) (pa + PGSIZE) perm n

/-- mappages from kernel/vm.c over the faithful layer: the same page
arithmetic as the state-pure model, with walk's directory allocations
and the -1 return on allocation failure. -/
def mappagesA (kend cpu : Nat) (tb : PTab) (va size pa perm : Nat) (st : MState) :
    Option (Bool × PTab × MState) :=
  if size = 0 then none
  else
    let a := pgrounddown va
    let last := pgrounddown ((va + size - 1) % U64)
    mappagesGoA kend cpu tb st (a / PGSIZE) pa perm ((last + U64 - a) % U64 / PGSIZE + 1)

/-- One iteration of the uvmunmap loop over the faithful layer at leaf
slot i: skip when walk(alloc = 0) finds no leaf slot or the entry lacks
V, panic on flags exactly V, otherwise optionally refcnt-decrement the
target frame and zero the entry. -/
def uvmunmapStepA (kend cpu : Nat) (tb : PTab) (st : MState) (i : Nat) (doFree : Bool) :
    Option (PTab × MState) :=
  if MAXVA ≤ PGSIZE * i then none
  else match leafAtD tb i with
    | none => some (tb, st)
    | some pte =>
      if pteHas pte PTE_V = false then some (tb, st)
      else if pteFlags pte = PTE_V then none
      else if doFree then
        match kalloc_refcnt_dec kend cpu (pte2pa pte) st with
        | none => none
        | some st1 => some ({ tb with leaf := Function.update tb.leaf i 0 }, st1)
      else some ({ tb with leaf := Function.update tb.leaf i 0 }, st)

def uvmunmapGoA (kend cpu : Nat) (tb : PTab) (st : MState) (i : Nat) (doFree : Bool) :
    Nat → Option (PTab × MState)
  | 0 => some (tb, st)
  | n + 1 =>
    match uvmunmapStepA kend cpu tb st i doFree with
    | none => none
    | some (tb1, st1) => uvmunmapGoA kend cpu tb1 st1 (i + 1) doFree n

/-- uvmunmap from kernel/vm.c over the faithful layer. -/
def uvmunmapA (kend cpu : Nat) (tb : PTab) (va size : Nat) (doFree : Bool) (st : MState) :
    Option (PTab × MState) :=
  let a := pgrounddown va
  let last := pgrounddown ((va + size + (U64 - 1)) % U64)
  uvmunmapGoA kend cpu tb st (a / PGSIZE) doFree ((last + U64 - a) % U64 / PGSIZE + 1)

/-- One iteration of the uvmcopy loop over the faithful layer at page
i: skip a missing or invalid source leaf; otherwise install the frame
into the destination under the COW flags (walk allocating directories
as needed), clear and reinstall the source leaf under the same flags,
and increment the frame's refcount.  inr is the goto err path: a
mappages failure unmaps the destination range built so far with frame
freeing and returns -1. -/
def uvmcopyStepA (kend cpu : Nat) (old new : PTab) (st : MState) (i : Nat) :
    Option ((PTab × PTab × MState) ⊕ (PTab × PTab × MState)) :=
  if MAXVA ≤ PGSIZE * i then none
  else match leafAtD old i with
    | none => some (Sum.inl (old, new, st))
    | some pte =>
      if pteHas pte PTE_V = false then some (Sum.inl (old, new, st))
      else
        let pa := pte2pa pte
        match mappagesA kend cpu new (PGSIZE * i) PGSIZE pa (cowFlags pte) st with
        | none => none
        | some (false, new1, st1) =>
          match uvmunmapA kend cpu new1 0 (PGSIZE * i) true st1 with
          | none => none
          | some (new2, st2) => some (Sum.inr (old, new2, st2))
        | some (true, new1, st1) =>
          match uvmunmapA kend cpu old (PGSIZE * i) PGSIZE false st1 with
          | none => none
          | some (old1, st2) =>
            match mappagesA kend cpu old1 (PGSIZE * i) PGSIZE pa (cowFlags pte) st2 with
            | none => none
            | some (false, old2, st3) =>
              match uvmunmapA kend cpu new1 0 (PGSIZE * i) true st3 with
              | none => none
              | some (new2, st4) => some (Sum.inr (old2, new2, st4))
            | some (true, old2, st3) =>
              some (Sum.inl (old2, new1, kalloc_refcnt_add kend pa st3))

def uvmcopyGoA (kend cpu : Nat) (old new : PTab) (st : MState) (i : Nat) :
    Nat → Option (Int × PTab × PTab × MState)
  | 0 => some (0, old, new, st)
  | n + 1 =>
    match uvmcopyStepA kend cpu old new st i with
    | none => none
    | some (Sum.inr (o, nw, st1)) => some (-1, o, nw, st1)
    | some (Sum.inl (o, nw, st1)) => uvmcopyGoA kend cpu o nw st1 (i + 1) n

/-- uvmcopy from kernel/vm.c over the faithful layer: the COW fork copy
of a user page table, directory allocations included. -/
def uvmcopyA (kend cpu : Nat) (old new : PTab) (sz : Nat) (st : MState) :
    Option (Int × PTab × PTab × MState) :=
  uvmcopyGoA kend cpu old new st 0 (npages sz)

instance instDecInvD (kend b : Nat) (st : MState) (tbs : List PTab) :
    Decidable (InvD kend b st tbs) := by
  unfold InvD
  infer_instance

instance instDecFreelistsOk (kend : Nat) (st : MState) :
    Decidable (freelistsOk kend st) := by
  unfold freelistsOk
  infer_instance

/-- Witness parent table for the faithful layer: root frame 0x87FF8000,
one level-1 directory 0x87FF9000, one leaf directory 0x87FFA000, and a
single live leaf at virtual page 0 (V, R, W, U: flags 23) targeting the
data frame 0x87FFB000. -/
def woldA : PTab :=
  ⟨0x87FF8000,
   fun i2 => if i2 = 0 then some 0x87FF9000 else none,
   fun j => if j = 0 then some 0x87FFA000 else none,
   fun p => if p = 0 then pa2pte 0x87FFB000 + 23 else 0⟩

/-- Witness child table: an empty table rooted at frame 0x87FFC000, the
shape uvmcreate leaves. -/
def wnewA : PTab := ⟨0x87FFC000, fun _ => none, fun _ => none, fun _ => 0⟩

/-- Witness machine state for the faithful layer, with the kernel end
symbol at 0x87FF8000 so the refcounted range holds eight frames: the
two roots, the parent's two directories and the data frame carry
refcount 1, and the remaining three frames are free on the CPU-0
freelist. -/
def wstA : MState :=
  ⟨fun c => if c = 0 then [0x87FFD000, 0x87FFE000, 0x87FFF000] else [],
   fun _ => 0,
   fun ix => if ix < 5 then 1 else 0,
   fun _ => 0, [], []⟩

/-- The result quadruple of uvmcopyA on the witness inputs. -/
def wresA : Int × PTab × PTab × MState :=
  (uvmcopyA 0x87FF8000 0 woldA wnewA PGSIZE wstA).getD (0, woldA, wnewA, wstA)

/-- C10: uvmdealloc with newsz at least oldsz returns oldsz and leaves
the page table, the leaf PTEs and the refcounts untouched; likewise
uvmalloc with newsz below oldsz. -/
theorem uvm_resize_noop (kend cpu : Nat) (pt : PT) (st : MState) (oldsz newsz : Nat) :
    (oldsz ≤ newsz → uvmdealloc kend cpu pt oldsz newsz st = some (oldsz, pt, st)) ∧
    (newsz < oldsz → uvmalloc kend cpu pt oldsz newsz st = some (oldsz, pt, st)) := by
  constructor
  · intro h
    simp [uvmdealloc, h]
  · intro h
    simp [uvmalloc, h]

theorem uvm_resize_noop_witness :
    ((5000 : Nat) ≤ 6000 ∧
      uvmdealloc 0x80001000 0 (fun _ => none) 5000 6000 st0 =
        some (5000, fun _ => none, st0)) ∧
    ((4000 : Nat) < 6000 ∧
      uvmalloc 0x80001000 0 (fun _ => none) 6000 4000 st0 =
        some (6000, fun _ => none, st0)) :=
  ⟨⟨by decide, (uvm_resize_noop 0x80001000 0 (fun _ => none) st0 5000 6000).1 (by decide)⟩,
   ⟨by decide, (uvm_resize_noop 0x80001000 0 (fun _ => none) st0 6000 4000).2 (by decide)⟩⟩

/-- C9 (code bug): the refcount-index guard is dead.  For
pa = 0x80000000 below an end symbol at 0x80001000, kalloc_refcnt_idx
yields the unsigned sentinel 2^32 - 1, the guard idx < 0 never fires
because idx is a C uint, kalloc_refcnt_add therefore increments the
entry at index 2^32 - 1, far beyond the table length 32768, instead of
early-returning with the table unchanged, and kalloc_refcnt_dec on the
same address hits its zero-count panic instead of early-returning. -/
theorem kalloc_refcnt_idx_guard_dead :
    kalloc_refcnt_idx 0x80001000 0x80000000 = U32 - 1 ∧
    REFCNT_LEN = 32768 ∧ REFCNT_LEN < U32 - 1 ∧
    (kalloc_refcnt_add 0x80001000 0x80000000 st0).refcnt (U32 - 1) = 1 ∧
    (kalloc_refcnt_dec 0x80001000 0 0x80000000 st0).isNone = true := by
  refine ⟨by decide, by decide, by decide, ?_, by decide⟩
  decide

/-- Scanning CPUs whose freelists are all empty yields nothing and
leaves the state alone. -/
lemma kmem_stealGo_all_empty (st : MState) (l : List Nat)
    (h : ∀ c ∈ l, st.freelist c = []) : kmem_stealGo st l = (none, st) := by
  induction l with
  | nil => rfl
  | cons c cs ih =>
    have hc : st.freelist c = [] := h c (List.mem_cons_self c cs)
    rw [kmem_stealGo, hc]
    exact ih fun d hd => h d (List.mem_cons_of_mem c hd)

/-- The scan returns nothing exactly when every scanned freelist is
empty. -/
lemma kmem_stealGo_none_iff (st : MState) (l : List Nat) :
    (kmem_stealGo st l).1 = none ↔ ∀ c ∈ l, st.freelist c = [] := by
  induction l with
  | nil => simp [kmem_stealGo]
  | cons c cs ih =>
    rw [kmem_stealGo]
    cases hc : st.freelist c with
    | nil =>
      simp only [ih]
      constructor
      · intro h d hd
        rcases List.mem_cons.1 hd with rfl | hd'
        · exact hc
        · exact h d hd'
      · intro h d hd
        exact h d (List.mem_cons_of_mem c hd)
    | cons r rest =>
      simp only []
      constructor
      · intro h
        exact absurd h (by simp)
      · intro h
        exact absurd hc (by simp [h c (List.mem_cons_self c cs)])

/-- A prefix of empty freelists does not affect the scan. -/
lemma kmem_stealGo_append (st : MState) (l1 l2 : List Nat)
    (h : ∀ c ∈ l1, st.freelist c = []) :
    kmem_stealGo st (l1 ++ l2) = kmem_stealGo st l2 := by
  induction l1 with
  | nil => rfl
  | cons c cs ih =>
    have hc : st.freelist c = [] := h c (List.mem_cons_self c cs)
    rw [List.cons_append, kmem_stealGo, hc]
    exact ih fun d hd => h d (List.mem_cons_of_mem c hd)

/-- C7: kalloc serves the head of the local freelist; when that is
empty it serves the head of the first non-empty freelist in the scan
from CPU 0; it returns null exactly when every freelist is empty. -/
theorem kalloc_policy (kend cpu : Nat) (st : MState) (hcpu : cpu < NCPU) :
    ((kalloc kend cpu st).1 = none ↔ ∀ c < NCPU, st.freelist c = []) ∧
    (∀ r rest, st.freelist cpu = r :: rest → (kalloc kend cpu st).1 = some r) ∧
    (∀ j r rest, st.freelist cpu = [] → j < NCPU → st.freelist j = r :: rest →
      (∀ k < j, st.freelist k = []) → (kalloc kend cpu st).1 = some r) := by
  refine ⟨?_, ?_, ?_⟩
  · cases hc : st.freelist cpu with
    | cons r rest =>
      rw [kalloc, hc]
      constructor
      · intro h
        exact absurd h (by simp)
      · intro h
        exact absurd hc (by simp [h cpu hcpu])
    | nil =>
      rw [kalloc, hc, kmem_steal]
      have hiff := kmem_stealGo_none_iff st (List.range NCPU)
      constructor
      · intro h
        intro c hcn
        have : (kmem_stealGo st (List.range NCPU)).1 = none := by
          rcases hs : kmem_stealGo st (List.range NCPU) with ⟨o, st1⟩
          cases o with
          | none => rfl
          | some r => rw [hs] at h; exact absurd h (by simp)
        exact hiff.1 this c (List.mem_range.2 hcn)
      · intro h
        have : kmem_stealGo st (List.range NCPU) = (none, st) :=
          kmem_stealGo_all_empty st _ fun c hcn => h c (List.mem_range.1 hcn)
        rw [this]
  · intro r rest hc
    rw [kalloc, hc]
  · intro j r rest hc hj hjr hfirst
    rw [kalloc, hc, kmem_steal]
    have hsplit : List.range NCPU = List.range j ++ List.range' j (NCPU - j) := by
      have h1 := List.range'_append 0 j (NCPU - j) 1
      simp only [Nat.zero_add, Nat.one_mul] at h1
      rw [List.range_eq_range', List.range_eq_range', h1]
      congr 1
      omega
    rw [hsplit, kmem_stealGo_append st _ _
      (fun c hcm => hfirst c (List.mem_range.1 hcm))]
    have hexp : List.range' j (NCPU - j) = j :: List.range' (j + 1) (NCPU - j - 1) := by
      have h2 : NCPU - j = (NCPU - j - 1) + 1 := by omega
      rw [h2, List.range'_succ]
      simp
    rw [hexp, kmem_stealGo, hjr]

theorem kalloc_policy_witness :
    ((0 : Nat) < NCPU ∧ (stealW.freelist 0 = [] ∧ (2 : Nat) < NCPU ∧
        stealW.freelist 2 = [0x80005000] ∧ ∀ k < 2, stealW.freelist k = []) ∧
      (kalloc 0x80001000 0 stealW).1 = some 0x80005000) ∧
    ((1 : Nat) < NCPU ∧ headW.freelist 1 = [0x80007000, 0x80008000] ∧
      (kalloc 0x80001000 1 headW).1 = some 0x80007000) :=
  ⟨⟨by decide, ⟨by decide, by decide, by decide, by decide⟩,
    (kalloc_policy 0x80001000 0 stealW (by decide)).2.2 2 0x80005000 []
      (by decide) (by decide) (by decide) (by decide)⟩,
   ⟨by decide, by decide,
    (kalloc_policy 0x80001000 1 headW (by decide)).2.1 0x80007000 [0x80008000]
      (by decide)⟩⟩

/-- C8: the fault handler rejects, leaving process and machine state
untouched, any fault at or past the process size, and any fault whose
page has a leaf PTE that is valid but not user-accessible (the stack
guard page); the second part assumes the faulting address is below
MAXVA, as every address with a leaf PTE is. -/
theorem uvm_handle_page_fault_rejects (kend cpu : Nat) (p : Proc) (fault_va : Nat)
    (st : MState) :
    (p.sz ≤ fault_va → uvm_handle_page_fault kend cpu p fault_va st = some (-1, p, st)) ∧
    (∀ pte, fault_va < MAXVA →
      p.pagetable (pgrounddown fault_va / PGSIZE) = some pte →
      pteHas pte PTE_V = true → pteHas pte PTE_U = false →
      uvm_handle_page_fault kend cpu p fault_va st = some (-1, p, st)) := by
  constructor
  · intro h
    rw [uvm_handle_page_fault, if_pos h]
  · intro pte hva hpte hv hu
    by_cases hsz : p.sz ≤ fault_va
    · rw [uvm_handle_page_fault, if_pos hsz]
    · have hlt : pgrounddown fault_va < MAXVA :=
        Nat.lt_of_le_of_lt (Nat.div_mul_le_self fault_va PGSIZE) hva
      have hw : walkP p.pagetable (pgrounddown fault_va) = some (some pte) := by
        rw [walkP, if_neg (Nat.not_le.2 hlt), hpte]
      rw [uvm_handle_page_fault, if_neg hsz]
      simp [hw, hv, hu]

theorem uvm_handle_page_fault_rejects_witness :
    ((0x1000 : Nat) < MAXVA ∧ guardP.pagetable (pgrounddown 0x1000 / PGSIZE) = some 1 ∧
      pteHas 1 PTE_V = true ∧ pteHas 1 PTE_U = false ∧
      uvm_handle_page_fault 0x80001000 0 guardP 0x1000 st0 = some (-1, guardP, st0)) ∧
    (guardP.sz ≤ 0x5000 ∧
      uvm_handle_page_fault 0x80001000 0 guardP 0x5000 st0 = some (-1, guardP, st0)) :=
  ⟨⟨by decide, by decide, by decide, by decide,
    (uvm_handle_page_fault_rejects 0x80001000 0 guardP 0x1000 st0).2 1
      (by decide) (by decide) (by decide) (by decide)⟩,
   ⟨by decide,
    (uvm_handle_page_fault_rejects 0x80001000 0 guardP 0x5000 st0).1 (by decide)⟩⟩

/-- C6 (code bug): with a COW leaf (V and C set, W clear) at the
destination page and every freelist empty, the fresh frame cannot be
allocated, yet copyout returns 0 instead of -1 and performs the
bytewise copy straight into the shared frame (the goto end path in the
source): the byte 9 lands at physical address 0x80002000 although that
frame still has refcount 2. -/
theorem copyout_cow_exhaustion_goto_end :
    pteHas (pa2pte 0x80002000 + 275) PTE_V = true ∧
    pteHas (pa2pte 0x80002000 + 275) PTE_W = false ∧
    pteHas (pa2pte 0x80002000 + 275) PTE_C = true ∧
    c6st.refcnt (kalloc_refcnt_idx 0x80001000 0x80002000) = 2 ∧
    (∀ c < NCPU, c6st.freelist c = []) ∧
    (copyout 0x80001000 0 c6pt 0x3000 [9] 1 c6st).map (fun r => r.1) = some 0 ∧
    (copyout 0x80001000 0 c6pt 0x3000 [9] 1 c6st).map (fun r => r.2.2.mem 0x80002000) =
      some 9 := by
  decide

/-- C4 (code bug): a fault on the third page of the region (vp = 0x7000,
vp - slot.va = 8192) makes mmap_pagefault_handle request the file read
at offset min(PGSIZE, vp - slot.va) = 4096, not at the distance 8192
from the start of the region; the recorded byte count
min(PGSIZE, slot.va + slot.len - vp) = 4096 and the 0 return are as
claimed. -/
theorem mmap_pagefault_offset_saturates :
    (mmap_pagefault_handle 0x80001000 0 c4info (fun _ => none) 0x7000 0x80002000
      st0).map (fun r => r.1) = some 0 ∧
    (mmap_pagefault_handle 0x80001000 0 c4info (fun _ => none) 0x7000 0x80002000
      st0).map (fun r => r.2.2.reads) = some [(5, 4096, 4096)] ∧
    0x7000 - c4info.vaddr = 8192 := by
  decide

/-- C5 (code bug): unmapping the SHARED region [0x5000, 0x6800) whose
last page is partial writes back min(PGSIZE, slot.len - a) bytes per
page; at the second page a = 0x6000 the uint64 difference
slot.len - a = 0x1800 - 0x6000 wraps, so 4096 bytes are written back
where the claimed amount min(PGSIZE, region_end - a) is 2048.  The
num_pages countdown and the slot release at 0 do happen (used becomes
false), and the call returns 0. -/
theorem munmap_writeback_amount_wrong :
    (sys_munmap 0x80001000 0 c5p 0x5000 0x1800 c5st).map (fun r => r.1) = some 0 ∧
    (sys_munmap 0x80001000 0 c5p 0x5000 0x1800 c5st).map (fun r => r.2.2.writes) =
      some [(5, 0x6000, 4096, 4096), (5, 0x5000, 0, 4096)] ∧
    (sys_munmap 0x80001000 0 c5p 0x5000 0x1800 c5st).map
      (fun r => (r.2.1.mmap_regions.getD 0 default).used) = some false ∧
    (sys_munmap 0x80001000 0 c5p 0x5000 0x1800 c5st).map
      (fun r => (r.2.1.mmap_regions.getD 0 default).numPages) = some 0 ∧
    min PGSIZE (0x5000 + 0x1800 - 0x6000) = 2048 := by
  decide

/-- C3 (code bug): freeing the single held object drops the occupancy
of the cache to 0, but the release test in kmem_cache_free is
cache->size < 0, so nothing is released: the backing frame keeps
refcount 1 instead of being handed back through kalloc_refcnt_dec, the
cache slot stays reserved (flag true), the slab pointer stays bound,
and the handle is not rewritten. -/
theorem slab_drain_not_released :
    (kmem_cache_free 0x80001000 0 3 0 0x80002000 c3ss c3st).map (fun r => r.1) =
      some 0 ∧
    (kmem_cache_free 0x80001000 0 3 0 0x80002000 c3ss c3st).map (fun r => r.2.1.flags 0) =
      some true ∧
    (kmem_cache_free 0x80001000 0 3 0 0x80002000 c3ss c3st).map
      (fun r => (r.2.1.caches 0).size) = some 0 ∧
    (kmem_cache_free 0x80001000 0 3 0 0x80002000 c3ss c3st).map
      (fun r => (r.2.1.caches 0).slab) = some 0x80002000 ∧
    (kmem_cache_free 0x80001000 0 3 0 0x80002000 c3ss c3st).map
      (fun r => r.2.2.refcnt 1) = some 1 := by
  decide

/-- C1 counterexample: the claimed invariant holds in the c1st state,
and the allocator operation kalloc_refcnt_add named by the claim breaks
it: after the call the frame has refcount 1 while no live leaf PTE in
any page table points at it, so the invariant is not preserved by every
listed operation. -/
theorem invclaim_not_preserved_by_refcnt_add :
    InvClaim 0x87FFF000 1 c1st [] ∧
    ¬ InvClaim 0x87FFF000 1 (kalloc_refcnt_add 0x87FFF000 0x87FFF000 c1st) [] := by
  decide

lemma lor_eq_add_of_lt (n : Nat) : ∀ a b : Nat, a % 2 ^ n = 0 → b < 2 ^ n →
    a ||| b = a + b := by
  induction n with
  | zero =>
    intro a b _ hb
    have hb0 : b = 0 := by omega
    simp [hb0]
  | succ n ih =>
    intro a b ha hb
    obtain ⟨k, rfl⟩ := Nat.dvd_of_mod_eq_zero ha
    have h2 : 2 ^ (n + 1) * k = 2 * (2 ^ n * k) := by ring
    have ha2 : (2 ^ (n + 1) * k) % 2 = 0 := by rw [h2]; exact Nat.mul_mod_right 2 _
    have hdiv2 : (2 ^ (n + 1) * k) / 2 = 2 ^ n * k := by
      rw [h2]; exact Nat.mul_div_cancel_left _ (by norm_num)
    have had : (2 ^ (n + 1) * k) / 2 % 2 ^ n = 0 := by
      rw [hdiv2]; exact Nat.mul_mod_right _ _
    have hbd : b / 2 < 2 ^ n := by
      have hp : 2 ^ (n + 1) = 2 * 2 ^ n := by ring
      omega
    have hmod : (2 ^ (n + 1) * k ||| b) % 2 = b % 2 := by
      rcases Nat.mod_two_eq_zero_or_one b with h | h
      · have hno : ¬(2 ^ (n + 1) * k ||| b) % 2 = 1 := by
          rw [Nat.or_mod_two_eq_one]; omega
        omega
      · have hyes : (2 ^ (n + 1) * k ||| b) % 2 = 1 := by
          rw [Nat.or_mod_two_eq_one]; omega
        omega
    have had' : (2 ^ n * k) % 2 ^ n = 0 := Nat.mul_mod_right _ _
    have hdiv : (2 ^ (n + 1) * k ||| b) / 2 = 2 ^ n * k + b / 2 := by
      rw [Nat.or_div_two, hdiv2]
      exact ih _ _ had' hbd
    omega

/-- pteHas at a power-of-two flag is exactly testBit. -/
lemma pteHas_pow (x t : Nat) : pteHas x (2 ^ t) = x.testBit t := by
  rw [Nat.testBit_to_div_mod]
  by_cases h : x / 2 ^ t % 2 = 1 <;> simp [pteHas, h]

lemma pteHas_V_testBit (x : Nat) : pteHas x PTE_V = x.testBit 0 := pteHas_pow x 0
lemma pteHas_W_testBit (x : Nat) : pteHas x PTE_W = x.testBit 2 := pteHas_pow x 2
lemma pteHas_U_testBit (x : Nat) : pteHas x PTE_U = x.testBit 4 := pteHas_pow x 4
lemma pteHas_C_testBit (x : Nat) : pteHas x PTE_C = x.testBit 8 := pteHas_pow x 8

lemma testBit_mul1024_add (k g t : Nat) (ht : t < 10) :
    (1024 * k + g).testBit t = g.testBit t := by
  have hsplit : 1024 * k + g = 2 ^ t * (2 ^ (10 - t) * k) + g := by
    rw [← Nat.mul_assoc, ← pow_add]
    have h10 : t + (10 - t) = 10 := by omega
    rw [h10]
    norm_num
  have hdvd : 2 ∣ 2 ^ (10 - t) := dvd_pow_self 2 (by omega : 10 - t ≠ 0)
  obtain ⟨m, hm⟩ := hdvd
  rw [hsplit, Nat.testBit_to_div_mod, Nat.testBit_to_div_mod]
  have hpos : 0 < 2 ^ t := Nat.pos_pow_of_pos t (by norm_num)
  rw [Nat.mul_add_div hpos, decide_eq_decide]
  have heven : 2 ^ (10 - t) * k % 2 = 0 := by
    rw [hm]
    have h2 : 2 * m * k = 2 * (m * k) := by ring
    rw [h2]
    exact Nat.mul_mod_right 2 _
  omega

lemma two_pow_ten : (2 : Nat) ^ 10 = 1024 := by norm_num

lemma cowFlags_lt (pte : Nat) : cowFlags pte < 1024 := by
  have h1 : pteFlags pte &&& (U32 - 1 - PTE_W) ≤ pteFlags pte := Nat.and_le_left
  have h2 : pteFlags pte < 1024 := Nat.mod_lt _ (by norm_num)
  have h3 : pteFlags pte &&& (U32 - 1 - PTE_W) < 2 ^ 10 := by
    have := two_pow_ten
    omega
  have h4 := Nat.or_lt_two_pow (n := 10) h3 (by decide : PTE_C < 2 ^ 10)
  have := two_pow_ten
  unfold cowFlags
  omega

lemma uncowFlags_lt (pte : Nat) : uncowFlags pte < 1024 := by
  have h2 : pteFlags pte < 2 ^ 10 := by
    have h0 : pteFlags pte < 1024 := Nat.mod_lt _ (by norm_num)
    have := two_pow_ten
    omega
  have h3 := Nat.or_lt_two_pow (n := 10) h2 (by decide : PTE_W < 2 ^ 10)
  have h1 : (pteFlags pte ||| PTE_W) &&& (U32 - 1 - PTE_C) ≤ pteFlags pte ||| PTE_W :=
    Nat.and_le_left
  have := two_pow_ten
  unfold uncowFlags
  omega

lemma pa2pte_mod (pa : Nat) : pa2pte pa % 1024 = 0 := Nat.mul_mod_left _ _

/-- The product form of any value written by mappagesPut: a frame part
that is a multiple of 1024 plus a small flag part. -/
lemma mappages_pte_eq (pa perm : Nat) (hperm : perm < 1024) :
    pa2pte pa ||| perm ||| PTE_V = 1024 * (pa / 4096) + (perm ||| PTE_V) := by
  rw [Nat.or_assoc]
  have hperm2 : perm < 2 ^ 10 := by
    have := two_pow_ten
    omega
  have hor : perm ||| PTE_V < 2 ^ 10 :=
    Nat.or_lt_two_pow (n := 10) hperm2 (by decide : PTE_V < 2 ^ 10)
  have heq := lor_eq_add_of_lt 10 (pa2pte pa) (perm ||| PTE_V)
    (by rw [← two_pow_ten] at *; exact pa2pte_mod pa) hor
  rw [heq, pa2pte, Nat.mul_comm]

lemma pte2pa_mappages_pte (pa perm : Nat) (hperm : perm < 1024) (hpa : pa % PGSIZE = 0) :
    pte2pa (pa2pte pa ||| perm ||| PTE_V) = pa := by
  rw [mappages_pte_eq pa perm hperm, pte2pa]
  have hperm2 : perm < 2 ^ 10 := by
    have := two_pow_ten
    omega
  have hor2 := Nat.or_lt_two_pow (n := 10) hperm2 (by decide : PTE_V < 2 ^ 10)
  have hor : perm ||| PTE_V < 1024 := by
    have := two_pow_ten
    omega
  rw [Nat.mul_add_div (by norm_num : 0 < 1024)]
  rw [Nat.div_eq_of_lt hor, Nat.add_zero]
  have := Nat.div_add_mod pa 4096
  have hz : pa % 4096 = 0 := hpa
  omega

lemma pteHas_V_mappages_pte (pa perm : Nat) (hperm : perm < 1024) :
    pteHas (pa2pte pa ||| perm ||| PTE_V) PTE_V = true := by
  rw [pteHas_V_testBit, mappages_pte_eq pa perm hperm, testBit_mul1024_add _ _ _ (by norm_num),
    Nat.testBit_lor]
  simp [PTE_V]

lemma pteHas_flag_mappages_pte (pa perm : Nat) (hperm : perm < 1024) (t : Nat) (ht : t < 10)
    (htpos : 0 < t) :
    (pa2pte pa ||| perm ||| PTE_V).testBit t = perm.testBit t := by
  rw [mappages_pte_eq pa perm hperm, testBit_mul1024_add _ _ _ ht, Nat.testBit_lor]
  have hv : PTE_V.testBit t = false := by
    rw [show PTE_V = 2 ^ 0 from rfl, Nat.testBit_two_pow]
    simp
    omega
  rw [hv, Bool.or_false]

lemma cowFlags_W (pte : Nat) : (cowFlags pte).testBit 2 = false := by
  unfold cowFlags
  rw [Nat.testBit_lor, Nat.testBit_land]
  have h1 : (U32 - 1 - PTE_W).testBit 2 = false := by decide
  have h2 : PTE_C.testBit 2 = false := by decide
  rw [h1, h2]
  simp

lemma cowFlags_C (pte : Nat) : (cowFlags pte).testBit 8 = true := by
  unfold cowFlags
  rw [Nat.testBit_lor]
  have h2 : PTE_C.testBit 8 = true := by decide
  rw [h2]
  simp

lemma mkCow_W (pte : Nat) : pteHas (mkCow pte) PTE_W = false := by
  rw [mkCow, pteHas_W_testBit,
    pteHas_flag_mappages_pte _ _ (cowFlags_lt pte) 2 (by norm_num) (by norm_num),
    cowFlags_W]

lemma mkCow_C (pte : Nat) : pteHas (mkCow pte) PTE_C = true := by
  rw [mkCow, pteHas_C_testBit,
    pteHas_flag_mappages_pte _ _ (cowFlags_lt pte) 8 (by norm_num) (by norm_num),
    cowFlags_C]

lemma mkCow_V (pte : Nat) : pteHas (mkCow pte) PTE_V = true :=
  pteHas_V_mappages_pte _ _ (cowFlags_lt pte)

lemma pte2pa_aligned (pte : Nat) : pte2pa pte % PGSIZE = 0 := Nat.mul_mod_left _ _

lemma mkCow_pa (pte : Nat) : pte2pa (mkCow pte) = pte2pa pte :=
  pte2pa_mappages_pte _ _ (cowFlags_lt pte) (pte2pa_aligned pte)

lemma pgrounddown_mod (a : Nat) : pgrounddown a % PGSIZE = 0 := Nat.mul_mod_left _ _

lemma pgrounddown_of_aligned {a : Nat} (h : a % PGSIZE = 0) : pgrounddown a = a := by
  unfold pgrounddown at *
  simp only [PGSIZE] at *
  omega

lemma pgrounddown_le (a : Nat) : pgrounddown a ≤ a := Nat.div_mul_le_self a PGSIZE

lemma pgroundup_mod (a : Nat) : pgroundup a % PGSIZE = 0 := pgrounddown_mod _

lemma pgroundup_small (a : Nat) (h : a + PGSIZE ≤ U64) :
    pgroundup a = (a + PGSIZE - 1) / PGSIZE * PGSIZE := by
  unfold pgroundup pgrounddown at *
  simp only [PGSIZE, U64] at *
  rw [Nat.mod_eq_of_lt (by omega)]

lemma le_pgroundup (a : Nat) (h : a + PGSIZE ≤ U64) : a ≤ pgroundup a := by
  rw [pgroundup_small a h]
  simp only [PGSIZE, U64] at *
  omega

lemma frameAt_mod (kend i : Nat) : frameAt kend i % PGSIZE = 0 := by
  unfold frameAt
  have h1 := pgroundup_mod kend
  simp only [PGSIZE] at *
  omega

lemma frameAt_lt (kend i : Nat) (hi : i < nframes kend) : frameAt kend i < PHYSTOP := by
  unfold frameAt
  unfold nframes at hi
  simp only [PGSIZE, PHYSTOP, KERNBASE] at *
  omega

lemma kend_le_pgroundup (kend : Nat) (hk : kend ≤ PHYSTOP) : kend ≤ pgroundup kend := by
  refine le_pgroundup kend ?_
  simp only [PGSIZE, U64, PHYSTOP, KERNBASE] at *
  omega

lemma idx_frameAt (kend i : Nat) (hk : kend ≤ PHYSTOP) (hi : i < nframes kend) :
    kalloc_refcnt_idx kend (frameAt kend i) = i := by
  have hge : kend ≤ frameAt kend i := by
    have h1 := kend_le_pgroundup kend hk
    unfold frameAt
    omega
  have hlt := frameAt_lt kend i hi
  have halign := frameAt_mod kend i
  unfold kalloc_refcnt_idx
  rw [if_neg (by omega)]
  rw [pgrounddown_of_aligned halign]
  unfold frameAt at *
  have harith : pgroundup kend + PGSIZE * i + U64 - pgroundup kend = PGSIZE * i + U64 := by
    simp only [U64]
    omega
  have hbound : PGSIZE * i < U64 := by
    simp only [PGSIZE, U64, PHYSTOP, KERNBASE] at hlt ⊢
    omega
  rw [harith, Nat.add_mod_right, Nat.mod_eq_of_lt hbound,
    Nat.mul_div_cancel_left _ (by norm_num [PGSIZE] : 0 < PGSIZE)]
  refine Nat.mod_eq_of_lt ?_
  unfold nframes at hi
  simp only [PGSIZE, U32, PHYSTOP, KERNBASE] at *
  omega

lemma frameAt_inj {kend i j : Nat} (h : frameAt kend i = frameAt kend j) : i = j := by
  unfold frameAt at h
  simp only [PGSIZE] at h
  omega

lemma frame_decomp (kend pa : Nat) (_hk : kend ≤ PHYSTOP) (h1 : pgroundup kend ≤ pa)
    (h2 : pa < PHYSTOP) (ha : pa % PGSIZE = 0) :
    ∃ j, j < nframes kend ∧ pa = frameAt kend j := by
  have hup := pgroundup_mod kend
  refine ⟨(pa - pgroundup kend) / PGSIZE, ?_, ?_⟩
  · unfold nframes
    simp only [PGSIZE, PHYSTOP, KERNBASE] at *
    omega
  · unfold frameAt
    simp only [PGSIZE] at *
    omega

lemma refcntOf_update_frame (kend : Nat) (hk : kend ≤ PHYSTOP) (st st' : MState) (j : Nat)
    (hj : j < nframes kend) (v : Nat)
    (hr : st'.refcnt =
      Function.update st.refcnt (kalloc_refcnt_idx kend (frameAt kend j)) v)
    (i : Nat) (hi : i < nframes kend) :
    refcntOf kend st' (frameAt kend i) =
      if i = j then v else refcntOf kend st (frameAt kend i) := by
  unfold refcntOf
  rw [hr, idx_frameAt kend j hk hj, idx_frameAt kend i hk hi]
  by_cases h : i = j
  · subst h
    rw [Function.update_same, if_pos rfl]
  · rw [Function.update_noteq h, if_neg h]

lemma pageCount_congr {b : Nat} {pt pt' : PT} (h : ∀ j, j < b → pt j = pt' j) (f : Nat) :
    pageCount b pt f = pageCount b pt' f := by
  unfold pageCount
  congr 1
  refine List.filter_congr ?_
  intro j hj
  rw [h j (List.mem_range.1 hj)]

lemma pageCount_succ (b : Nat) (pt : PT) (f : Nat) :
    pageCount (b + 1) pt f =
      pageCount b pt f + (if pteLiveAt (pt b) f then 1 else 0) := by
  unfold pageCount
  rw [List.range_succ, List.filter_append, List.length_append]
  cases h : pteLiveAt (pt b) f <;> simp [h]

lemma pageCount_update (b i : Nat) (hib : i < b) (pt : PT) (v : Option Nat) (f : Nat) :
    pageCount b (Function.update pt i v) f + (if pteLiveAt (pt i) f then 1 else 0) =
      pageCount b pt f + (if pteLiveAt v f then 1 else 0) := by
  induction b with
  | zero => omega
  | succ b ih =>
    rcases Nat.lt_succ_iff_lt_or_eq.1 hib with h | rfl
    · have hne : b ≠ i := by omega
      rw [pageCount_succ, pageCount_succ, Function.update_noteq hne]
      have := ih h
      omega
    · have hup : pageCount i (Function.update pt i v) f = pageCount i pt f :=
        pageCount_congr (fun j hj => by rw [Function.update_noteq (by omega : j ≠ i)]) f
      rw [pageCount_succ, pageCount_succ, Function.update_same, hup]
      omega

lemma pageCount_pos (b i : Nat) (hib : i < b) (pt : PT) (f : Nat)
    (h : pteLiveAt (pt i) f = true) : 1 ≤ pageCount b pt f := by
  induction b with
  | zero => omega
  | succ b ih =>
    rcases Nat.lt_succ_iff_lt_or_eq.1 hib with hh | rfl
    · have := ih hh
      rw [pageCount_succ]
      omega
    · have hone : (if pteLiveAt (pt i) f then 1 else 0) = 1 := by rw [h]; simp
      rw [pageCount_succ, hone]
      omega

lemma leafCount_cons (b : Nat) (pt : PT) (l : List PT) (f : Nat) :
    leafCount b (pt :: l) f = pageCount b pt f + leafCount b l f := by
  simp [leafCount]

lemma sum_map_range_congr {n : Nat} {g1 g2 : Nat → Nat} (h : ∀ c, c < n → g1 c = g2 c) :
    ((List.range n).map g1).sum = ((List.range n).map g2).sum := by
  congr 1
  refine List.map_congr_left ?_
  intro c hc
  exact h c (List.mem_range.1 hc)

lemma sum_range_update (n c : Nat) (hc : c < n) (g : Nat → Nat) (v : Nat) :
    ((List.range n).map (fun x => Function.update g c v x)).sum + g c =
      ((List.range n).map g).sum + v := by
  induction n with
  | zero => omega
  | succ n ih =>
    rw [List.range_succ, List.map_append, List.map_append, List.sum_append,
      List.sum_append]
    simp only [List.map_cons, List.map_nil, List.sum_cons, List.sum_nil]
    rcases Nat.lt_succ_iff_lt_or_eq.1 hc with h | rfl
    · have := ih h
      rw [Function.update_noteq (by omega : n ≠ c)]
      omega
    · have hpre : ((List.range c).map (fun x => Function.update g c v x)).sum =
          ((List.range c).map g).sum :=
        sum_map_range_congr (fun x hx => Function.update_noteq (by omega) _ _)
      rw [Function.update_same, hpre]
      omega

/-- Pushing pa on the freelist of one CPU raises the cross-CPU occurrence
count of pa by one and leaves other frames untouched.  The statement is
phrased over the freelist functions so that it applies to any two states
whose freelists stand in the push relation. -/
lemma freelistCount_push (st st' : MState) (cpu pa : Nat) (hc : cpu < NCPU) (f : Nat)
    (hf : ∀ c, st'.freelist c =
      Function.update st.freelist cpu (pa :: st.freelist cpu) c) :
    freelistCount st' f = freelistCount st f + (if pa = f then 1 else 0) := by
  unfold freelistCount
  have hcongr : ((List.range NCPU).map (fun c => (st'.freelist c).count f)).sum =
      ((List.range NCPU).map (fun c =>
        Function.update (fun c => (st.freelist c).count f) cpu
          ((pa :: st.freelist cpu).count f) c)).sum := by
    refine sum_map_range_congr ?_
    intro c _
    rw [hf]
    by_cases h : c = cpu
    · subst h
      rw [Function.update_same, Function.update_same]
    · rw [Function.update_noteq h, Function.update_noteq h]
  rw [hcongr]
  have hs := sum_range_update NCPU cpu hc (fun c => (st.freelist c).count f)
    ((pa :: st.freelist cpu).count f)
  have hcount : (pa :: st.freelist cpu).count f =
      (st.freelist cpu).count f + (if pa = f then 1 else 0) := by
    rw [List.count_cons]
    simp
  omega

/-- A state whose freelists agree pointwise has the same occurrence
counts. -/
lemma freelistCount_congr (st st' : MState) (hf : st'.freelist = st.freelist) (f : Nat) :
    freelistCount st' f = freelistCount st f := by
  unfold freelistCount
  rw [hf]

lemma pteLiveAt_some_zero (f : Nat) : pteLiveAt (some 0) f = false := by
  simp [pteLiveAt, pteHas]

lemma pteLiveAt_not_target {pte f : Nat} (h : pte2pa pte ≠ f) :
    pteLiveAt (some pte) f = false := by
  simp [pteLiveAt, h]

lemma pteLiveAt_target {pte f : Nat} (hv : pteHas pte PTE_V = true) (h : pte2pa pte = f) :
    pteLiveAt (some pte) f = true := by
  simp [pteLiveAt, hv, h]

/-- What a successful kalloc_refcnt_dec does, stated through field
equations: the count at the computed index was positive and drops by
one; at a 1-to-0 transition the frame is pushed on the freelist of the
calling CPU, otherwise the freelists are untouched. -/
lemma kalloc_refcnt_dec_spec (kend cpu pa : Nat) (st st' : MState)
    (h : kalloc_refcnt_dec kend cpu pa st = some st') :
    1 ≤ st.refcnt (kalloc_refcnt_idx kend pa) ∧
    st'.refcnt = Function.update st.refcnt (kalloc_refcnt_idx kend pa)
      (st.refcnt (kalloc_refcnt_idx kend pa) - 1) ∧
    (st.refcnt (kalloc_refcnt_idx kend pa) = 1 →
      ∀ c, st'.freelist c =
        Function.update st.freelist cpu (pa :: st.freelist cpu) c) ∧
    (st.refcnt (kalloc_refcnt_idx kend pa) ≠ 1 → st'.freelist = st.freelist) := by
  unfold kalloc_refcnt_dec at h
  by_cases h0 : st.refcnt (kalloc_refcnt_idx kend pa) = 0
  · rw [if_pos h0] at h
    exact absurd h (by simp)
  rw [if_neg h0] at h
  by_cases h1 : st.refcnt (kalloc_refcnt_idx kend pa) - 1 = 0
  · rw [if_pos h1] at h
    unfold kfree at h
    by_cases hcond : pa % PGSIZE ≠ 0 ∨ pa < kend ∨ PHYSTOP ≤ pa
    · rw [if_pos hcond] at h
      exact absurd h (by simp)
    rw [if_neg hcond] at h
    simp only [Option.some.injEq] at h
    subst h
    refine ⟨by omega, rfl, fun _ c => rfl, fun hne => absurd (by omega) hne⟩
  · rw [if_neg h1] at h
    simp only [Option.some.injEq] at h
    subst h
    refine ⟨by omega, rfl, fun heq => absurd (by omega) h1, fun _ => rfl⟩

lemma pteLiveAt_mkCow (pte f : Nat) (hv : pteHas pte PTE_V = true) :
    pteLiveAt (some (mkCow pte)) f = pteLiveAt (some pte) f := by
  simp [pteLiveAt, mkCow_V pte, mkCow_pa pte, hv]

lemma pageCount_congr_live {b : Nat} {pt pt' : PT} {f : Nat}
    (h : ∀ j, j < b → pteLiveAt (pt j) f = pteLiveAt (pt' j) f) :
    pageCount b pt f = pageCount b pt' f := by
  unfold pageCount
  congr 1
  refine List.filter_congr ?_
  intro j hj
  rw [h j (List.mem_range.1 hj)]


/-- An l0At reading is present exactly when both the level-1 slot and
the raw l0 slot are. -/
lemma l0At_isSome (tb : PTab) (j : Nat) :
    (l0At tb j).isSome = true ↔
      (tb.l1 (j / 512)).isSome = true ∧ (tb.l0 j).isSome = true := by
  unfold l0At
  by_cases h : (tb.l1 (j / 512)).isSome = true
  · rw [if_pos h]
    simp [h]
  · rw [if_neg h]
    simp [h]

lemma leafAtD_some (tb : PTab) (p v : Nat) (h : leafAtD tb p = some v) :
    (l0At tb (p / 512)).isSome = true ∧ tb.leaf p = v := by
  unfold leafAtD at h
  by_cases hs : (l0At tb (p / 512)).isSome = true
  · rw [if_pos hs] at h
    exact ⟨hs, Option.some.inj h⟩
  · rw [if_neg hs] at h
    exact absurd h (by simp)

lemma leafAtD_present (tb : PTab) (p : Nat) (h : (l0At tb (p / 512)).isSome = true) :
    leafAtD tb p = some (tb.leaf p) := by
  unfold leafAtD
  rw [if_pos h]

lemma leafAtD_missing (tb : PTab) (p : Nat) (h : ¬ (l0At tb (p / 512)).isSome = true) :
    leafAtD tb p = none := by
  unfold leafAtD
  rw [if_neg h]

/-- Changing only the stored leaves leaves the directory readings
alone. -/
lemma l0At_setleaf (tb : PTab) (g : Nat → Nat) (j : Nat) :
    l0At { tb with leaf := g } j = l0At tb j := rfl

lemma leafAtD_setleaf (tb : PTab) (g : Nat → Nat) (p : Nat) :
    leafAtD { tb with leaf := g } p =
      if (l0At tb (p / 512)).isSome then some (g p) else none := rfl

/-- Writing one leaf slot under a present directory is a pointwise
update of the leaf reading. -/
lemma leafAtD_update (tb : PTab) (i v : Nat)
    (h : (l0At tb (i / 512)).isSome = true) (q : Nat) :
    leafAtD { tb with leaf := Function.update tb.leaf i v } q =
      Function.update (leafAtD tb) i (some v) q := by
  by_cases hq : q = i
  · subst hq
    rw [Function.update_same, leafAtD_setleaf, if_pos h, Function.update_same]
  · rw [leafAtD_setleaf, Function.update_noteq hq, Function.update_noteq hq]
    rfl

lemma optCount_succ (m : Nat) (g : Nat → Option Nat) (f : Nat) :
    optCount (m + 1) g f = optCount m g f + (if g m = some f then 1 else 0) := by
  unfold optCount
  rw [List.range_succ, List.filter_append, List.length_append]
  by_cases h : g m = some f <;> simp [h]

lemma optCount_congr {m : Nat} {g g2 : Nat → Option Nat} (f : Nat)
    (h : ∀ j, j < m → g j = g2 j) :
    optCount m g f = optCount m g2 f := by
  unfold optCount
  congr 1
  refine List.filter_congr ?_
  intro j hj
  rw [h j (List.mem_range.1 hj)]

lemma optCount_update (m j : Nat) (hjm : j < m) (g : Nat → Option Nat)
    (v : Option Nat) (f : Nat) :
    optCount m (Function.update g j v) f + (if g j = some f then 1 else 0) =
      optCount m g f + (if v = some f then 1 else 0) := by
  induction m with
  | zero => omega
  | succ m ih =>
    rcases Nat.lt_succ_iff_lt_or_eq.1 hjm with h | rfl
    · have hne : m ≠ j := by omega
      rw [optCount_succ, optCount_succ, Function.update_noteq hne]
      have := ih h
      omega
    · have hup : optCount j (Function.update g j v) f = optCount j g f :=
        optCount_congr f (fun q hq => by
          rw [Function.update_noteq (by omega : q ≠ j)])
      rw [optCount_succ, optCount_succ, Function.update_same, hup]
      omega

lemma liveAdds_succ (pt : PT) (i n f : Nat) :
    liveAdds pt i (n + 1) f =
      (if pteLiveAt (pt i) f = true then 1 else 0) + liveAdds pt (i + 1) n f := by
  unfold liveAdds
  rw [List.range'_succ]
  by_cases h : pteLiveAt (pt i) f = true
  · simp [h]
    omega
  · simp [h]

lemma liveAdds_congr (pt pt2 : PT) (i n f : Nat)
    (h : ∀ p, i ≤ p → p < i + n → pt p = pt2 p) :
    liveAdds pt i n f = liveAdds pt2 i n f := by
  unfold liveAdds
  congr 1
  refine List.filter_congr ?_
  intro p hp
  have hm := List.mem_range'_1.1 hp
  rw [h p hm.1 (by omega)]

lemma liveAdds_eq_pageCount (pt : PT) (n f : Nat) :
    liveAdds pt 0 n f = pageCount n pt f := by
  unfold liveAdds pageCount
  rw [List.range_eq_range']

lemma l1slot_lt (p b : Nat) (h : p < b) : p / 512 / 512 < rootSlots b := by
  unfold rootSlots
  rw [Nat.div_div_eq_div_mul]
  omega

lemma l0slot_lt (p b : Nat) (h : p < b) : p / 512 < l0Slots b := by
  unfold l0Slots
  omega

lemma validFrame_frameAt (kend j : Nat) (hj : j < nframes kend) :
    validFrame kend (frameAt kend j) :=
  ⟨frameAt_mod kend j, Nat.le_add_right _ _, frameAt_lt kend j hj⟩

/-- The computed refcount index separates distinct frames of the
refcounted range. -/
lemma validFrame_idx_inj (kend : Nat) (hk : kend ≤ PHYSTOP) (f1 f2 : Nat)
    (h1 : validFrame kend f1) (h2 : validFrame kend f2) (hne : f1 ≠ f2) :
    kalloc_refcnt_idx kend f1 ≠ kalloc_refcnt_idx kend f2 := by
  obtain ⟨j1, hj1, rfl⟩ := frame_decomp kend f1 hk h1.2.1 h1.2.2 h1.1
  obtain ⟨j2, hj2, rfl⟩ := frame_decomp kend f2 hk h2.2.1 h2.2.2 h2.1
  rw [idx_frameAt kend j1 hk hj1, idx_frameAt kend j2 hk hj2]
  intro hc
  exact hne (by rw [hc])

lemma leafCountD_cons (b : Nat) (tb : PTab) (l : List PTab) (f : Nat) :
    leafCountD b (tb :: l) f = pageCount b (leafAtD tb) f + leafCountD b l f := by
  unfold leafCountD
  rw [List.map_cons, List.sum_cons]

lemma dirCountAll_cons (b : Nat) (tb : PTab) (l : List PTab) (f : Nat) :
    dirCountAll b (tb :: l) f = dirCount b tb f + dirCountAll b l f := by
  unfold dirCountAll
  rw [List.map_cons, List.sum_cons]

/-- A failed kalloc leaves the state untouched. -/
lemma kalloc_none (kend cpu : Nat) (st st1 : MState)
    (h : kalloc kend cpu st = (none, st1)) : st1 = st := by
  unfold kalloc at h
  cases hl : st.freelist cpu with
  | cons r rest =>
    rw [hl] at h
    dsimp only at h
    exact absurd (congrArg Prod.fst h) (by simp)
  | nil =>
    rw [hl] at h
    dsimp only at h
    cases hs : kmem_steal st with
    | mk ro sto =>
      rw [hs] at h
      cases ro with
      | some r =>
        dsimp only at h
        exact absurd (congrArg Prod.fst h) (by simp)
      | none =>
        dsimp only at h
        have h2 : sto = st1 := congrArg Prod.snd h
        have hs2 : kmem_stealGo st (List.range NCPU) = (none, sto) := by
          unfold kmem_steal at hs
          exact hs
        have hall : ∀ c ∈ List.range NCPU, st.freelist c = [] :=
          (kmem_stealGo_none_iff st (List.range NCPU)).1 (by rw [hs2])
        have hsame := kmem_stealGo_all_empty st (List.range NCPU) hall
        rw [hsame] at hs2
        have h3 : st = sto := congrArg Prod.snd hs2
        rw [← h2, ← h3]

/-- A successful scan pops the head of the first non-empty freelist of
the scanned CPUs and changes nothing else. -/
lemma kmem_stealGo_some (st : MState) (l : List Nat) (d : Nat) (st1 : MState)
    (h : kmem_stealGo st l = (some d, st1)) :
    ∃ c ∈ l, (st.freelist c = d :: st1.freelist c ∧
      ∀ c2, c2 ≠ c → st1.freelist c2 = st.freelist c2) ∧
      st1.refcnt = st.refcnt := by
  induction l with
  | nil => exact absurd (congrArg Prod.fst h) (by simp [kmem_stealGo])
  | cons c cs ih =>
    rw [kmem_stealGo] at h
    cases hc : st.freelist c with
    | nil =>
      rw [hc] at h
      obtain ⟨c2, hmem, h1, h2⟩ := ih h
      exact ⟨c2, List.mem_cons_of_mem c hmem, h1, h2⟩
    | cons r rest =>
      rw [hc] at h
      have h1 : some r = some d := congrArg Prod.fst h
      obtain rfl := Option.some.inj h1
      have h2 := congrArg Prod.snd h
      dsimp only at h2
      refine ⟨c, List.mem_cons_self c cs, ⟨?_, ?_⟩, ?_⟩
      · rw [← h2]
        show st.freelist c = r :: Function.update st.freelist c rest c
        rw [Function.update_same]
        exact hc
      · intro c2 hne
        rw [← h2]
        exact Function.update_noteq hne _ _
      · rw [← h2]

/-- What a successful kalloc does to the fields the invariant reads:
one pop event of the returned frame. -/
lemma kalloc_spec (kend cpu : Nat) (hcpu : cpu < NCPU) (st : MState)
    (d : Nat) (st1 : MState) (h : kalloc kend cpu st = (some d, st1)) :
    PopEvent kend st st1 d := by
  unfold kalloc at h
  cases hl : st.freelist cpu with
  | cons r rest =>
    rw [hl] at h
    dsimp only at h
    have h1 : some r = some d := congrArg Prod.fst h
    obtain rfl := Option.some.inj h1
    have h2 := congrArg Prod.snd h
    dsimp only at h2
    refine ⟨cpu, hcpu, ?_, ?_, ?_⟩
    · rw [← h2]
      show st.freelist cpu = r :: Function.update st.freelist cpu rest cpu
      rw [Function.update_same]
      exact hl
    · intro c2 hne
      rw [← h2]
      exact Function.update_noteq hne _ _
    · rw [← h2]
      rfl
  | nil =>
    rw [hl] at h
    dsimp only at h
    cases hs : kmem_steal st with
    | mk ro sto =>
      rw [hs] at h
      cases ro with
      | none =>
        dsimp only at h
        exact absurd (congrArg Prod.fst h) (by simp)
      | some r =>
        dsimp only at h
        have h1 : some r = some d := congrArg Prod.fst h
        obtain rfl := Option.some.inj h1
        have h2 := congrArg Prod.snd h
        dsimp only at h2
        have hs2 : kmem_stealGo st (List.range NCPU) = (some r, sto) := by
          unfold kmem_steal at hs
          exact hs
        obtain ⟨c, hmem, ⟨hpop, hoth⟩, hrc⟩ :=
          kmem_stealGo_some st (List.range NCPU) r sto hs2
        refine ⟨c, List.mem_range.1 hmem, ?_, ?_, ?_⟩
        · rw [← h2]
          show st.freelist c = r :: sto.freelist c
          exact hpop
        · intro c2 hne
          rw [← h2]
          show sto.freelist c2 = st.freelist c2
          exact hoth c2 hne
        · rw [← h2]
          show Function.update sto.refcnt (kalloc_refcnt_idx kend r)
            (sto.refcnt (kalloc_refcnt_idx kend r) + 1) =
            Function.update st.refcnt (kalloc_refcnt_idx kend r)
              (st.refcnt (kalloc_refcnt_idx kend r) + 1)
          rw [hrc]


lemma popEvent_suffix (kend : Nat) (st st1 : MState) (d : Nat)
    (hpop : PopEvent kend st st1 d) :
    ∀ c2, List.IsSuffix (st1.freelist c2) (st.freelist c2) := by
  obtain ⟨c, hc, hhead, hoth, -⟩ := hpop
  intro c2
  by_cases h : c2 = c
  · subst h
    exact ⟨[d], hhead.symm⟩
  · rw [hoth c2 h]

lemma freelistCount_le_of_suffix (st st1 : MState)
    (h : ∀ c2, List.IsSuffix (st1.freelist c2) (st.freelist c2)) (f : Nat) :
    freelistCount st1 f ≤ freelistCount st f := by
  unfold freelistCount
  refine List.sum_le_sum ?_
  intro c hc
  exact List.Sublist.count_le (h c).sublist f

lemma freelistsOk_of_suffix (kend : Nat) (st st1 : MState)
    (h : ∀ c2, List.IsSuffix (st1.freelist c2) (st.freelist c2))
    (hok : freelistsOk kend st) : freelistsOk kend st1 := by
  intro c hc pa hpa
  exact hok c hc pa ((h c).subset hpa)

lemma popEvent_mem (kend : Nat) (st st1 : MState) (d : Nat)
    (hpop : PopEvent kend st st1 d) : ∃ c, c < NCPU ∧ d ∈ st.freelist c := by
  obtain ⟨c, hc, hhead, -, -⟩ := hpop
  refine ⟨c, hc, ?_⟩
  rw [hhead]
  exact List.mem_cons_self _ _

lemma freelistCount_pos_of_mem (st : MState) (c : Nat) (hc : c < NCPU) (x : Nat)
    (hm : x ∈ st.freelist c) : 0 < freelistCount st x := by
  unfold freelistCount
  have hcount : 0 < (st.freelist c).count x := List.count_pos_iff.2 hm
  have hmem : (st.freelist c).count x ∈
      (List.range NCPU).map (fun c2 => (st.freelist c2).count x) :=
    List.mem_map.2 ⟨c, List.mem_range.2 hc, rfl⟩
  have hle := List.single_le_sum (fun y hy => Nat.zero_le y) _ hmem
  omega

/-- The popped frame belongs to the refcounted range when the freelists
are well formed. -/
lemma popEvent_valid (kend : Nat) (st st1 : MState) (d : Nat)
    (hpop : PopEvent kend st st1 d) (hfl : freelistsOk kend st) :
    validFrame kend d := by
  obtain ⟨c, hc, hm⟩ := popEvent_mem kend st st1 d hpop
  exact hfl c hc d hm

lemma popEvent_count (kend : Nat) (st st1 : MState) (d : Nat)
    (hpop : PopEvent kend st st1 d) (f : Nat) :
    freelistCount st f = freelistCount st1 f + (if d = f then 1 else 0) := by
  obtain ⟨c, hc, hhead, hoth, -⟩ := hpop
  have hf : ∀ c2, st.freelist c2 =
      Function.update st1.freelist c (d :: st1.freelist c) c2 := by
    intro c2
    by_cases h : c2 = c
    · subst h
      rw [Function.update_same]
      exact hhead
    · rw [Function.update_noteq h]
      exact (hoth c2 h).symm
  exact freelistCount_push st1 st c d hc f hf

/-- A pop event does not touch the refcount entry of a distinct valid
frame that sits on no freelist, and that frame stays off the lists. -/
lemma popEvent_skip (kend : Nat) (hk : kend ≤ PHYSTOP) (st st1 : MState) (d : Nat)
    (hpop : PopEvent kend st st1 d) (hfl : freelistsOk kend st)
    (f : Nat) (hf : validFrame kend f) (hf0 : freelistCount st f = 0) :
    st1.refcnt (kalloc_refcnt_idx kend f) = st.refcnt (kalloc_refcnt_idx kend f) ∧
    freelistCount st1 f = 0 := by
  have hd : validFrame kend d := popEvent_valid kend st st1 d hpop hfl
  obtain ⟨c, hc, hm⟩ := popEvent_mem kend st st1 d hpop
  have hdpos := freelistCount_pos_of_mem st c hc d hm
  have hne : d ≠ f := by
    intro hcontra
    rw [hcontra] at hdpos
    omega
  have hcnt := popEvent_count kend st st1 d hpop f
  rw [if_neg hne] at hcnt
  have hrefc : st1.refcnt = Function.update st.refcnt (kalloc_refcnt_idx kend d)
      (st.refcnt (kalloc_refcnt_idx kend d) + 1) := by
    obtain ⟨c2, -, -, -, h⟩ := hpop
    exact h
  refine ⟨?_, by omega⟩
  rw [hrefc, Function.update_noteq
    (Ne.symm (validFrame_idx_inj kend hk d f hd hf hne))]

/-- One pop event preserves the invariant when the popped frame lands
as exactly one new directory reference and the live-leaf census is
untouched. -/
lemma popEvent_invD (kend b : Nat) (hk : kend ≤ PHYSTOP)
    (st st1 : MState) (d : Nat) (tbs tbs1 : List PTab)
    (hpop : PopEvent kend st st1 d)
    (hd : validFrame kend d)
    (hleaf : ∀ f, leafCountD b tbs1 f = leafCountD b tbs f)
    (hdir : ∀ f, dirCountAll b tbs1 f =
      dirCountAll b tbs f + (if d = f then 1 else 0))
    (hinv : InvD kend b st tbs) : InvD kend b st1 tbs1 := by
  have hrefc : st1.refcnt = Function.update st.refcnt (kalloc_refcnt_idx kend d)
      (st.refcnt (kalloc_refcnt_idx kend d) + 1) := by
    obtain ⟨c, -, -, -, h⟩ := hpop
    exact h
  intro j hj
  have hprev := hinv j hj
  have hc := popEvent_count kend st st1 d hpop (frameAt kend j)
  rw [hleaf, hdir]
  by_cases hdj : d = frameAt kend j
  · have hrv : refcntOf kend st1 (frameAt kend j) =
        refcntOf kend st (frameAt kend j) + 1 := by
      unfold refcntOf
      rw [hrefc, hdj, Function.update_same]
    rw [if_pos hdj] at hc
    rw [if_pos hdj]
    constructor
    · rw [hrv, ← hprev.1]
      omega
    · have h1 := hprev.2
      have h2 : 1 ≤ freelistCount st (frameAt kend j) := by omega
      have h3 : refcntOf kend st (frameAt kend j) = 0 := by
        by_cases hz : refcntOf kend st (frameAt kend j) = 0
        · exact hz
        · rw [if_neg hz] at h1
          omega
      rw [h3, if_pos rfl] at h1
      rw [hrv, h3, if_neg (by omega)]
      omega
  · have hne := validFrame_idx_inj kend hk d (frameAt kend j) hd
      (validFrame_frameAt kend j hj) hdj
    have hrv : refcntOf kend st1 (frameAt kend j) =
        refcntOf kend st (frameAt kend j) := by
      unfold refcntOf
      rw [hrefc, Function.update_noteq (Ne.symm hne)]
    rw [if_neg hdj] at hc
    rw [if_neg hdj, hrv]
    constructor
    · rw [← hprev.1]
      omega
    · have h1 := hprev.2
      omega

/-- Field analysis of a table that received a fresh zeroed leaf
directory d at slot p / 512: live-leaf readings are unchanged, present
leaves are preserved, the slot goes from absent to d, the leaf entry at
p now reads as the empty value 0. -/
lemma l0alloc_facts (tb tb1 : PTab) (p d : Nat)
    (hl1k : (tb.l1 (p / 512 / 512)).isSome = true)
    (hl0 : tb.l0 (p / 512) = none)
    (hL1 : tb1.l1 = tb.l1)
    (hL0 : tb1.l0 = Function.update tb.l0 (p / 512) (some d))
    (hLF : tb1.leaf = fun q => if q / 512 = p / 512 then 0 else tb.leaf q) :
    (∀ q f, pteLiveAt (leafAtD tb1 q) f = pteLiveAt (leafAtD tb q) f) ∧
    (∀ q v, leafAtD tb q = some v → leafAtD tb1 q = some v) ∧
    leafAtD tb1 p = some 0 ∧
    l0At tb (p / 512) = none ∧ l0At tb1 (p / 512) = some d ∧
    (∀ j, j ≠ p / 512 → l0At tb1 j = l0At tb j) := by
  have hl0At : ∀ j, j ≠ p / 512 → l0At tb1 j = l0At tb j := by
    intro j hj
    unfold l0At
    rw [hL1, hL0, Function.update_noteq hj]
  have hl0Ats : l0At tb1 (p / 512) = some d := by
    unfold l0At
    rw [hL1, hL0, Function.update_same, if_pos hl1k]
  have hl0Atn : l0At tb (p / 512) = none := by
    unfold l0At
    rw [hl0]
    split <;> rfl
  have hleafeq : ∀ q, q / 512 ≠ p / 512 → leafAtD tb1 q = leafAtD tb q := by
    intro q hq
    unfold leafAtD
    rw [hl0At (q / 512) hq, hLF]
    dsimp only
    rw [if_neg hq]
  have hleafz : ∀ q, q / 512 = p / 512 → leafAtD tb1 q = some 0 := by
    intro q hq
    rw [leafAtD_present tb1 q (by rw [hq, hl0Ats]; rfl), hLF]
    dsimp only
    rw [if_pos hq]
  refine ⟨?_, ?_, hleafz p rfl, hl0Atn, hl0Ats, hl0At⟩
  · intro q f
    by_cases hq : q / 512 = p / 512
    · rw [hleafz q hq,
        leafAtD_missing tb q (by rw [hq, hl0Atn]; simp),
        pteLiveAt_some_zero]
      rfl
    · rw [hleafeq q hq]
  · intro q v hv
    by_cases hq : q / 512 = p / 512
    · have hs := leafAtD_some tb q v hv
      rw [hq, hl0Atn] at hs
      exact absurd hs.1 (by simp)
    · rw [hleafeq q hq]
      exact hv

/-- Field analysis of a table that received a fresh zeroed level-1
directory d1 at root slot p / 512 / 512: no leaf-directory reading or
leaf reading changes at all. -/
lemma l1alloc_facts (tb tb1 : PTab) (p d1 : Nat)
    (hl1 : tb.l1 (p / 512 / 512) = none)
    (hL1 : tb1.l1 = Function.update tb.l1 (p / 512 / 512) (some d1))
    (hL0 : tb1.l0 = fun j => if j / 512 = p / 512 / 512 then none else tb.l0 j)
    (hLF : tb1.leaf = tb.leaf) :
    (∀ q, leafAtD tb1 q = leafAtD tb q) ∧
    (∀ j, l0At tb1 j = l0At tb j) := by
  have hl0A : ∀ j, l0At tb1 j = l0At tb j := by
    intro j
    by_cases hj : j / 512 = p / 512 / 512
    · have h1 : l0At tb1 j = none := by
        unfold l0At
        rw [hL1, hj, Function.update_same, hL0]
        dsimp only
        rw [if_pos hj]
        split <;> rfl
      have h2 : l0At tb j = none := by
        unfold l0At
        rw [hj, hl1]
        rfl
      rw [h1, h2]
    · unfold l0At
      rw [hL1, Function.update_noteq hj, hL0]
      dsimp only
      rw [if_neg hj]
  refine ⟨?_, hl0A⟩
  intro q
  unfold leafAtD
  rw [hl0A, hLF]


lemma invD_congr (kend b : Nat) (st : MState) (tbs tbs1 : List PTab)
    (hleaf : ∀ f, leafCountD b tbs1 f = leafCountD b tbs f)
    (hdir : ∀ f, dirCountAll b tbs1 f = dirCountAll b tbs f)
    (hinv : InvD kend b st tbs) : InvD kend b st tbs1 := by
  intro j hj
  rw [hleaf, hdir]
  exact hinv j hj

lemma census_mid_leaf (b : Nat) (tbA tb tb1 : PTab) (rest : List PTab)
    (hlive : ∀ q f, pteLiveAt (leafAtD tb1 q) f = pteLiveAt (leafAtD tb q) f) :
    ∀ f, leafCountD b (tbA :: tb1 :: rest) f = leafCountD b (tbA :: tb :: rest) f := by
  intro f
  rw [leafCountD_cons, leafCountD_cons, leafCountD_cons, leafCountD_cons]
  have hpc : pageCount b (leafAtD tb1) f = pageCount b (leafAtD tb) f :=
    pageCount_congr_live (fun q hq => hlive q f)
  omega

lemma census_mid_dir_eq (b : Nat) (tbA tb tb1 : PTab) (rest : List PTab)
    (hroot : tb1.root = tb.root) (hL1 : tb1.l1 = tb.l1)
    (hl0A : ∀ j, l0At tb1 j = l0At tb j) :
    ∀ f, dirCountAll b (tbA :: tb1 :: rest) f =
      dirCountAll b (tbA :: tb :: rest) f := by
  intro f
  rw [dirCountAll_cons, dirCountAll_cons, dirCountAll_cons, dirCountAll_cons]
  have hd : dirCount b tb1 f = dirCount b tb f := by
    unfold dirCount
    rw [hroot, hL1]
    have hoc : optCount (l0Slots b) (l0At tb1) f = optCount (l0Slots b) (l0At tb) f :=
      optCount_congr f (fun j hj => hl0A j)
    omega
  omega

lemma census_mid_dir_l0 (b : Nat) (tbA tb tb1 : PTab) (rest : List PTab) (p d : Nat)
    (hpb : p < b)
    (hroot : tb1.root = tb.root) (hL1 : tb1.l1 = tb.l1)
    (hn : l0At tb (p / 512) = none) (hs : l0At tb1 (p / 512) = some d)
    (hoth : ∀ j, j ≠ p / 512 → l0At tb1 j = l0At tb j) :
    ∀ f, dirCountAll b (tbA :: tb1 :: rest) f =
      dirCountAll b (tbA :: tb :: rest) f + (if d = f then 1 else 0) := by
  intro f
  rw [dirCountAll_cons, dirCountAll_cons, dirCountAll_cons, dirCountAll_cons]
  have hd : dirCount b tb1 f = dirCount b tb f + (if d = f then 1 else 0) := by
    unfold dirCount
    rw [hroot, hL1]
    have hcong : optCount (l0Slots b) (l0At tb1) f =
        optCount (l0Slots b) (Function.update (l0At tb) (p / 512) (some d)) f := by
      refine optCount_congr f ?_
      intro j hj
      by_cases hjp : j = p / 512
      · subst hjp
        rw [hs, Function.update_same]
      · rw [hoth j hjp, Function.update_noteq hjp]
    have hupd := optCount_update (l0Slots b) (p / 512) (l0slot_lt p b hpb)
      (l0At tb) (some d) f
    rw [hn] at hupd
    have h1 : (if (none : Option Nat) = some f then 1 else 0) = 0 := by simp
    have h2 : (if (some d : Option Nat) = some f then 1 else 0) =
        (if d = f then 1 else 0) := by
      by_cases hdf : d = f
      · rw [if_pos hdf, if_pos (by rw [hdf])]
      · rw [if_neg hdf, if_neg (by simp [hdf])]
    rw [h1, h2] at hupd
    rw [hcong]
    omega
  omega

lemma census_mid_dir_l1 (b : Nat) (tbA tb tb1 : PTab) (rest : List PTab) (p d1 : Nat)
    (hpb : p < b)
    (hroot : tb1.root = tb.root)
    (hl1n : tb.l1 (p / 512 / 512) = none)
    (hL1 : tb1.l1 = Function.update tb.l1 (p / 512 / 512) (some d1))
    (hl0A : ∀ j, l0At tb1 j = l0At tb j) :
    ∀ f, dirCountAll b (tbA :: tb1 :: rest) f =
      dirCountAll b (tbA :: tb :: rest) f + (if d1 = f then 1 else 0) := by
  intro f
  rw [dirCountAll_cons, dirCountAll_cons, dirCountAll_cons, dirCountAll_cons]
  have hd : dirCount b tb1 f = dirCount b tb f + (if d1 = f then 1 else 0) := by
    unfold dirCount
    rw [hroot, hL1]
    have hoc : optCount (l0Slots b) (l0At tb1) f = optCount (l0Slots b) (l0At tb) f :=
      optCount_congr f (fun j hj => hl0A j)
    have hupd := optCount_update (rootSlots b) (p / 512 / 512)
      (l1slot_lt p b hpb) tb.l1 (some d1) f
    rw [hl1n] at hupd
    have h1 : (if (none : Option Nat) = some f then 1 else 0) = 0 := by simp
    have h2 : (if (some d1 : Option Nat) = some f then 1 else 0) =
        (if d1 = f then 1 else 0) := by
      by_cases hdf : d1 = f
      · rw [if_pos hdf, if_pos (by rw [hdf])]
      · rw [if_neg hdf, if_neg (by simp [hdf])]
    rw [h1, h2] at hupd
    omega
  omega

/-- walk with alloc = 1 on a fully present path is a pure lookup. -/
lemma walkAlloc_present (kend cpu : Nat) (tb : PTab) (p : Nat) (st : MState)
    (hp : PGSIZE * p < MAXVA) (h0 : (l0At tb (p / 512)).isSome = true) :
    walkAlloc kend cpu tb (PGSIZE * p) st = some (true, tb, st) := by
  obtain ⟨h1, h2⟩ := (l0At_isSome tb (p / 512)).1 h0
  unfold walkAlloc
  rw [if_neg (Nat.not_le.2 hp)]
  dsimp only
  have hpp : PGSIZE * p / PGSIZE = p :=
    Nat.mul_div_cancel_left _ (by norm_num [PGSIZE])
  rw [hpp]
  obtain ⟨w1, hw1⟩ := Option.isSome_iff_exists.1 h1
  obtain ⟨w0, hw0⟩ := Option.isSome_iff_exists.1 h2
  rw [hw1, hw0]

/-- What walk with alloc = 1 does: live-leaf readings never change,
present leaves persist, on success the leaf slot for p exists, and the
state and directory change is one of four exact shapes: no allocation;
one leaf-directory allocation; one level-1 allocation whose follow-up
failed; or both allocations in sequence. -/
lemma walkAlloc_spec (kend cpu : Nat) (hcpu : cpu < NCPU)
    (tb : PTab) (p : Nat) (st : MState) (hp : PGSIZE * p < MAXVA)
    (ok : Bool) (tb1 : PTab) (st1 : MState)
    (h : walkAlloc kend cpu tb (PGSIZE * p) st = some (ok, tb1, st1)) :
    tb1.root = tb.root ∧
    (∀ q f, pteLiveAt (leafAtD tb1 q) f = pteLiveAt (leafAtD tb q) f) ∧
    (∀ q v, leafAtD tb q = some v → leafAtD tb1 q = some v) ∧
    (ok = true → leafAtD tb1 p = some (tb1.leaf p) ∧
      (∀ f, pteLiveAt (leafAtD tb p) f = pteLiveAt (some (tb1.leaf p)) f)) ∧
    ((tb1.l1 = tb.l1 ∧ (∀ j, l0At tb1 j = l0At tb j) ∧ st1 = st) ∨
     (∃ d, PopEvent kend st st1 d ∧ tb1.l1 = tb.l1 ∧
       l0At tb (p / 512) = none ∧ l0At tb1 (p / 512) = some d ∧
       (∀ j, j ≠ p / 512 → l0At tb1 j = l0At tb j)) ∨
     (∃ d1, PopEvent kend st st1 d1 ∧
       tb.l1 (p / 512 / 512) = none ∧
       tb1.l1 = Function.update tb.l1 (p / 512 / 512) (some d1) ∧
       (∀ j, l0At tb1 j = l0At tb j)) ∨
     (∃ d1 d0 stm tbm, PopEvent kend st stm d1 ∧ PopEvent kend stm st1 d0 ∧
       tbm.root = tb.root ∧
       (∀ q f, pteLiveAt (leafAtD tbm q) f = pteLiveAt (leafAtD tb q) f) ∧
       tb.l1 (p / 512 / 512) = none ∧
       tbm.l1 = Function.update tb.l1 (p / 512 / 512) (some d1) ∧
       (∀ j, l0At tbm j = l0At tb j) ∧
       tb1.root = tbm.root ∧
       (∀ q f, pteLiveAt (leafAtD tb1 q) f = pteLiveAt (leafAtD tbm q) f) ∧
       tb1.l1 = tbm.l1 ∧
       l0At tbm (p / 512) = none ∧ l0At tb1 (p / 512) = some d0 ∧
       (∀ j, j ≠ p / 512 → l0At tb1 j = l0At tbm j))) := by
  unfold walkAlloc at h
  rw [if_neg (Nat.not_le.2 hp)] at h
  dsimp only at h
  have hpp : PGSIZE * p / PGSIZE = p :=
    Nat.mul_div_cancel_left _ (by norm_num [PGSIZE])
  rw [hpp] at h
  cases hl1 : tb.l1 (p / 512 / 512) with
  | some w1 =>
    rw [hl1] at h
    dsimp only at h
    cases hl0 : tb.l0 (p / 512) with
    | some w0 =>
      rw [hl0] at h
      dsimp only at h
      simp only [Option.some.injEq, Prod.mk.injEq] at h
      obtain ⟨rfl, rfl, rfl⟩ := h
      have hiso : (l0At tb (p / 512)).isSome = true := by
        unfold l0At
        rw [hl1, hl0]
        rfl
      refine ⟨rfl, fun q f => rfl, fun q v hv => hv, ?_,
        Or.inl ⟨rfl, fun j => rfl, rfl⟩⟩
      intro _htrue
      refine ⟨leafAtD_present tb p hiso, ?_⟩
      intro f
      rw [leafAtD_present tb p hiso]
    | none =>
      rw [hl0] at h
      dsimp only at h
      cases hkal : kalloc kend cpu st with
      | mk ro stk =>
        rw [hkal] at h
        cases ro with
        | none =>
          dsimp only at h
          simp only [Option.some.injEq, Prod.mk.injEq] at h
          obtain ⟨rfl, rfl, rfl⟩ := h
          obtain rfl := kalloc_none kend cpu st stk hkal
          exact ⟨rfl, fun q f => rfl, fun q v hv => hv,
            fun hcontra => absurd hcontra (by decide),
            Or.inl ⟨rfl, fun j => rfl, rfl⟩⟩
        | some d =>
          dsimp only at h
          simp only [Option.some.injEq, Prod.mk.injEq] at h
          obtain ⟨rfl, rfl, rfl⟩ := h
          have hpop := kalloc_spec kend cpu hcpu st d stk hkal
          obtain ⟨hlive, hpres, hleafp, hn, hs, hoth⟩ :=
            l0alloc_facts tb
              { root := tb.root, l1 := tb.l1
                l0 := Function.update tb.l0 (p / 512) (some d)
                leaf := fun q => if q / 512 = p / 512 then 0 else tb.leaf q }
              p d (by rw [hl1]; rfl) hl0 rfl rfl rfl
          refine ⟨rfl, hlive, hpres, ?_,
            Or.inr (Or.inl ⟨d, hpop, rfl, hn, hs, hoth⟩)⟩
          intro _htrue
          constructor
          · rw [hleafp]
            show some 0 = some (if p / 512 = p / 512 then 0 else tb.leaf p)
            rw [if_pos rfl]
          · intro f
            rw [leafAtD_missing tb p (by rw [hn]; simp)]
            show pteLiveAt none f =
              pteLiveAt (some (if p / 512 = p / 512 then 0 else tb.leaf p)) f
            rw [if_pos rfl, pteLiveAt_some_zero]
            rfl
  | none =>
    rw [hl1] at h
    dsimp only at h
    cases hkal : kalloc kend cpu st with
    | mk ro stk =>
      rw [hkal] at h
      cases ro with
      | none =>
        dsimp only at h
        simp only [Option.some.injEq, Prod.mk.injEq] at h
        obtain ⟨rfl, rfl, rfl⟩ := h
        obtain rfl := kalloc_none kend cpu st stk hkal
        exact ⟨rfl, fun q f => rfl, fun q v hv => hv,
          fun hcontra => absurd hcontra (by decide),
          Or.inl ⟨rfl, fun j => rfl, rfl⟩⟩
      | some d1 =>
        dsimp only at h
        cases hkal2 : kalloc kend cpu stk with
        | mk ro2 stk2 =>
          rw [hkal2] at h
          cases ro2 with
          | none =>
            dsimp only at h
            simp only [Option.some.injEq, Prod.mk.injEq] at h
            obtain ⟨rfl, rfl, rfl⟩ := h
            obtain rfl := kalloc_none kend cpu stk stk2 hkal2
            have hpop := kalloc_spec kend cpu hcpu st d1 stk2 hkal
            obtain ⟨hleq, hl0A⟩ := l1alloc_facts tb
              { root := tb.root
                l1 := Function.update tb.l1 (p / 512 / 512) (some d1)
                l0 := fun j => if j / 512 = p / 512 / 512 then none else tb.l0 j
                leaf := tb.leaf }
              p d1 hl1 rfl rfl rfl
            exact ⟨rfl, fun q f => by rw [hleq q],
              fun q v hv => by rw [hleq q]; exact hv,
              fun hcontra => absurd hcontra (by decide),
              Or.inr (Or.inr (Or.inl ⟨d1, hpop, rfl, rfl, hl0A⟩))⟩
          | some d0 =>
            dsimp only at h
            simp only [Option.some.injEq, Prod.mk.injEq] at h
            obtain ⟨rfl, rfl, rfl⟩ := h
            have hpop1 := kalloc_spec kend cpu hcpu st d1 stk hkal
            have hpop2 := kalloc_spec kend cpu hcpu stk d0 stk2 hkal2
            set tbm : PTab := { tb with
              l1 := Function.update tb.l1 (p / 512 / 512) (some d1)
              l0 := fun j => if j / 512 = p / 512 / 512 then none else tb.l0 j }
              with htbm
            obtain ⟨hleqm, hl0Am⟩ := l1alloc_facts tb tbm p d1 hl1 rfl rfl rfl
            have hl1km : (tbm.l1 (p / 512 / 512)).isSome = true := by
              show (Function.update tb.l1 (p / 512 / 512) (some d1)
                (p / 512 / 512)).isSome = true
              rw [Function.update_same]
              rfl
            have hl0m : tbm.l0 (p / 512) = none := by
              show (if p / 512 / 512 = p / 512 / 512 then none
                else tb.l0 (p / 512)) = none
              rw [if_pos rfl]
            obtain ⟨hlive2, hpres2, hleafp2, hn2, hs2, hoth2⟩ :=
              l0alloc_facts tbm
                { root := tb.root
                  l1 := Function.update tb.l1 (p / 512 / 512) (some d1)
                  l0 := Function.update
                    (fun j => if j / 512 = p / 512 / 512 then none else tb.l0 j)
                    (p / 512) (some d0)
                  leaf := fun q => if q / 512 = p / 512 then 0 else tb.leaf q }
                p d0 hl1km hl0m rfl rfl rfl
            refine ⟨rfl, ?_, ?_, ?_, Or.inr (Or.inr (Or.inr
              ⟨d1, d0, stk, tbm, hpop1, hpop2, rfl,
               fun q f => by rw [hleqm q], rfl, rfl, hl0Am, rfl, hlive2,
               rfl, hn2, hs2, hoth2⟩))⟩
            · intro q f
              rw [hlive2 q f, hleqm q]
            · intro q v hv
              rw [← hleqm q] at hv
              exact hpres2 q v hv
            · intro _htrue
              constructor
              · rw [hleafp2]
                show some 0 = some (if p / 512 = p / 512 then 0 else tb.leaf p)
                rw [if_pos rfl]
              · intro f
                have htbn : leafAtD tb p = none := by
                  refine leafAtD_missing tb p ?_
                  intro hcontra
                  obtain ⟨hA, -⟩ := (l0At_isSome tb (p / 512)).1 hcontra
                  rw [hl1] at hA
                  exact absurd hA (by simp)
                rw [htbn]
                show pteLiveAt none f =
                  pteLiveAt (some (if p / 512 = p / 512 then 0 else tb.leaf p)) f
                rw [if_pos rfl, pteLiveAt_some_zero]
                rfl

/-- walk with alloc = 1 preserves the invariant: each directory it
allocates moves off a freelist (refcount 0) and appears as exactly one
new directory reference (refcount 1). -/
lemma walkAlloc_invD (kend cpu b : Nat) (hk : kend ≤ PHYSTOP) (hcpu : cpu < NCPU)
    (tbA : PTab) (rest : List PTab) (tb : PTab) (p : Nat) (st : MState)
    (hp : PGSIZE * p < MAXVA) (hpb : p < b)
    (hfl : freelistsOk kend st) (hinv : InvD kend b st (tbA :: tb :: rest))
    (ok : Bool) (tb1 : PTab) (st1 : MState)
    (h : walkAlloc kend cpu tb (PGSIZE * p) st = some (ok, tb1, st1)) :
    InvD kend b st1 (tbA :: tb1 :: rest) := by
  obtain ⟨hroot, hlive, hpres, hokt, hshape⟩ :=
    walkAlloc_spec kend cpu hcpu tb p st hp ok tb1 st1 h
  rcases hshape with ⟨hL1, hL0A, rfl⟩ |
    ⟨d, hpop, hL1, hn, hs, hoth⟩ |
    ⟨d1, hpop, hl1n, hL1, hl0A⟩ |
    ⟨d1, d0, stm, tbm, hpop1, hpop2, hrootm, hlivem, hl1n, hL1m, hl0Am,
     hroot1, hlive1, hL11, hnm, hsm, hothm⟩
  · exact invD_congr kend b _ _ _
      (census_mid_leaf b tbA tb tb1 rest hlive)
      (census_mid_dir_eq b tbA tb tb1 rest hroot hL1 hL0A) hinv
  · exact popEvent_invD kend b hk st st1 d _ _ hpop
      (popEvent_valid kend st st1 d hpop hfl)
      (census_mid_leaf b tbA tb tb1 rest hlive)
      (census_mid_dir_l0 b tbA tb tb1 rest p d hpb hroot hL1 hn hs hoth) hinv
  · exact popEvent_invD kend b hk st st1 d1 _ _ hpop
      (popEvent_valid kend st st1 d1 hpop hfl)
      (census_mid_leaf b tbA tb tb1 rest hlive)
      (census_mid_dir_l1 b tbA tb tb1 rest p d1 hpb hroot hl1n hL1 hl0A) hinv
  · have hinvm : InvD kend b stm (tbA :: tbm :: rest) :=
      popEvent_invD kend b hk st stm d1 _ _ hpop1
        (popEvent_valid kend st stm d1 hpop1 hfl)
        (census_mid_leaf b tbA tb tbm rest hlivem)
        (census_mid_dir_l1 b tbA tb tbm rest p d1 hpb hrootm hl1n hL1m hl0Am) hinv
    have hflm : freelistsOk kend stm :=
      freelistsOk_of_suffix kend st stm (popEvent_suffix kend st stm d1 hpop1) hfl
    exact popEvent_invD kend b hk stm st1 d0 _ _ hpop2
      (popEvent_valid kend stm st1 d0 hpop2 hflm)
      (census_mid_leaf b tbA tbm tb1 rest hlive1)
      (census_mid_dir_l0 b tbA tbm tb1 rest p d0 hpb hroot1 hL11 hnm hsm hothm)
      hinvm


lemma pteLiveAt_dead (x f : Nat) (h : pteHas x PTE_V = false) :
    pteLiveAt (some x) f = false := by
  simp [pteLiveAt, h]

lemma dirCount_setleaf (b : Nat) (tb : PTab) (g : Nat → Nat) (f : Nat) :
    dirCount b { tb with leaf := g } f = dirCount b tb f := rfl

/-- mappages over the faithful layer on a single page-aligned page is
one put. -/
lemma mappagesA_single (kend cpu : Nat) (tb : PTab) (i pa perm : Nat) (st : MState)
    (h : PGSIZE * i < MAXVA) :
    mappagesA kend cpu tb (PGSIZE * i) PGSIZE pa perm st =
      mappagesPutA kend cpu tb i pa perm st := by
  unfold mappagesA
  rw [if_neg (by norm_num [PGSIZE])]
  dsimp only
  have hd : pgrounddown (PGSIZE * i) = PGSIZE * i :=
    pgrounddown_of_aligned (Nat.mul_mod_right _ _)
  have hmod : (PGSIZE * i + PGSIZE - 1) % U64 = PGSIZE * i + PGSIZE - 1 := by
    refine Nat.mod_eq_of_lt ?_
    simp only [PGSIZE, MAXVA, U64] at *
    omega
  have hlast : pgrounddown (PGSIZE * i + PGSIZE - 1) = PGSIZE * i := by
    unfold pgrounddown
    have hdiv : (PGSIZE * i + PGSIZE - 1) / PGSIZE = i := by
      simp only [PGSIZE] at *
      omega
    rw [hdiv, Nat.mul_comm]
  rw [hmod, hlast, hd]
  have hcount : (PGSIZE * i + U64 - PGSIZE * i) % U64 / PGSIZE + 1 = 1 := by
    have h1 : PGSIZE * i + U64 - PGSIZE * i = U64 := by omega
    rw [h1, Nat.mod_self]
    norm_num [PGSIZE]
  have hi : PGSIZE * i / PGSIZE = i := Nat.mul_div_cancel_left _ (by norm_num [PGSIZE])
  rw [hcount, hi]
  unfold mappagesGoA
  cases hput : mappagesPutA kend cpu tb i pa perm st with
  | none => rfl
  | some r =>
    obtain ⟨ok, tb1, st1⟩ := r
    cases ok
    · rfl
    · rfl

/-- uvmunmap over the faithful layer on a single page-aligned page is
one step. -/
lemma uvmunmapA_single (kend cpu : Nat) (tb : PTab) (i : Nat) (f : Bool) (st : MState)
    (h : PGSIZE * i < MAXVA) :
    uvmunmapA kend cpu tb (PGSIZE * i) PGSIZE f st =
      uvmunmapStepA kend cpu tb st i f := by
  unfold uvmunmapA
  dsimp only
  have hd : pgrounddown (PGSIZE * i) = PGSIZE * i :=
    pgrounddown_of_aligned (Nat.mul_mod_right _ _)
  have hmod : (PGSIZE * i + PGSIZE + (U64 - 1)) % U64 = PGSIZE * i + PGSIZE - 1 := by
    have h1 : PGSIZE * i + PGSIZE + (U64 - 1) = (PGSIZE * i + PGSIZE - 1) + U64 := by
      have h2 : 0 < U64 := by decide
      have h3 : 0 < PGSIZE := by norm_num [PGSIZE]
      omega
    rw [h1, Nat.add_mod_right]
    refine Nat.mod_eq_of_lt ?_
    simp only [PGSIZE, MAXVA, U64] at *
    omega
  have hlast : pgrounddown (PGSIZE * i + PGSIZE - 1) = PGSIZE * i := by
    unfold pgrounddown
    have hdiv : (PGSIZE * i + PGSIZE - 1) / PGSIZE = i := by
      simp only [PGSIZE] at *
      omega
    rw [hdiv, Nat.mul_comm]
  rw [hmod, hlast, hd]
  have hcount : (PGSIZE * i + U64 - PGSIZE * i) % U64 / PGSIZE + 1 = 1 := by
    have h1 : PGSIZE * i + U64 - PGSIZE * i = U64 := by omega
    rw [h1, Nat.mod_self]
    norm_num [PGSIZE]
  have hi : PGSIZE * i / PGSIZE = i := Nat.mul_div_cancel_left _ (by norm_num [PGSIZE])
  rw [hcount, hi]
  unfold uvmunmapGoA
  cases hstep : uvmunmapStepA kend cpu tb st i f with
  | none => rfl
  | some r =>
    obtain ⟨tb1, st1⟩ := r
    rfl

/-- A non-freeing unmap step on a live, non-trivial leaf zeroes the
slot and leaves the state alone. -/
lemma uvmunmapStepA_nofree (kend cpu : Nat) (tb : PTab) (st : MState) (i : Nat)
    (pte : Nat) (hl : leafAtD tb i = some pte) (hv : pteHas pte PTE_V = true)
    (hnl : pteFlags pte ≠ PTE_V) (hmax : PGSIZE * i < MAXVA) :
    uvmunmapStepA kend cpu tb st i false =
      some ({ tb with leaf := Function.update tb.leaf i 0 }, st) := by
  unfold uvmunmapStepA
  rw [if_neg (Nat.not_le.2 hmax), hl]
  dsimp only
  rw [if_neg (by simp [hv]), if_neg hnl]
  rfl

/-- An unmap step on a leaf whose flags are exactly V panics. -/
lemma uvmunmapStepA_panic (kend cpu : Nat) (tb : PTab) (st : MState) (i : Nat)
    (f : Bool) (pte : Nat) (hl : leafAtD tb i = some pte)
    (hv : pteHas pte PTE_V = true) (hnl : pteFlags pte = PTE_V)
    (hmax : PGSIZE * i < MAXVA) :
    uvmunmapStepA kend cpu tb st i f = none := by
  unfold uvmunmapStepA
  rw [if_neg (Nat.not_le.2 hmax), hl]
  dsimp only
  rw [if_neg (by simp [hv]), if_pos hnl]

/-- A put on a fully present path with a dead current entry installs
the new leaf and leaves the state alone. -/
lemma mappagesPutA_present (kend cpu : Nat) (tb : PTab) (i pa perm : Nat) (st : MState)
    (hmax : PGSIZE * i < MAXVA) (h0 : (l0At tb (i / 512)).isSome = true)
    (hnv : pteHas (tb.leaf i) PTE_V = false) :
    mappagesPutA kend cpu tb i pa perm st =
      some (true, { tb with
        leaf := Function.update tb.leaf i (pa2pte pa ||| perm ||| PTE_V) }, st) := by
  unfold mappagesPutA
  rw [walkAlloc_present kend cpu tb i st hmax h0]
  dsimp only
  rw [if_neg (by simp [hnv])]

/-- The state left by walk with alloc = 1 keeps every freelist a suffix
of what it was. -/
lemma walkAlloc_suffix (kend cpu : Nat) (hcpu : cpu < NCPU)
    (tb : PTab) (p : Nat) (st : MState) (hp : PGSIZE * p < MAXVA)
    (ok : Bool) (tb1 : PTab) (st1 : MState)
    (h : walkAlloc kend cpu tb (PGSIZE * p) st = some (ok, tb1, st1)) :
    ∀ c2, List.IsSuffix (st1.freelist c2) (st.freelist c2) := by
  obtain ⟨-, -, -, -, hshape⟩ :=
    walkAlloc_spec kend cpu hcpu tb p st hp ok tb1 st1 h
  rcases hshape with ⟨-, -, rfl⟩ | ⟨d, hpop, -⟩ | ⟨d1, hpop, -⟩ |
    ⟨d1, d0, stm, tbm, hpop1, hpop2, -⟩
  · exact fun c2 => List.suffix_refl _
  · exact popEvent_suffix kend st st1 d hpop
  · exact popEvent_suffix kend st st1 d1 hpop
  · intro c2
    exact List.IsSuffix.trans (popEvent_suffix kend stm st1 d0 hpop2 c2)
      (popEvent_suffix kend st stm d1 hpop1 c2)

/-- walk with alloc = 1 never touches the refcount entry of a valid
frame that sits on no freelist, and such a frame stays off the lists. -/
lemma walkAlloc_skip (kend cpu : Nat) (hk : kend ≤ PHYSTOP) (hcpu : cpu < NCPU)
    (tb : PTab) (p : Nat) (st : MState) (hp : PGSIZE * p < MAXVA)
    (hfl : freelistsOk kend st)
    (ok : Bool) (tb1 : PTab) (st1 : MState)
    (h : walkAlloc kend cpu tb (PGSIZE * p) st = some (ok, tb1, st1))
    (f : Nat) (hf : validFrame kend f) (hf0 : freelistCount st f = 0) :
    st1.refcnt (kalloc_refcnt_idx kend f) = st.refcnt (kalloc_refcnt_idx kend f) ∧
    freelistCount st1 f = 0 := by
  obtain ⟨-, -, -, -, hshape⟩ :=
    walkAlloc_spec kend cpu hcpu tb p st hp ok tb1 st1 h
  rcases hshape with ⟨-, -, rfl⟩ | ⟨d, hpop, -⟩ | ⟨d1, hpop, -⟩ |
    ⟨d1, d0, stm, tbm, hpop1, hpop2, -⟩
  · exact ⟨rfl, hf0⟩
  · exact popEvent_skip kend hk st st1 d hpop hfl f hf hf0
  · exact popEvent_skip kend hk st st1 d1 hpop hfl f hf hf0
  · obtain ⟨h1, h2⟩ := popEvent_skip kend hk st stm d1 hpop1 hfl f hf hf0
    have hflm : freelistsOk kend stm :=
      freelistsOk_of_suffix kend st stm (popEvent_suffix kend st stm d1 hpop1) hfl
    obtain ⟨h3, h4⟩ := popEvent_skip kend hk stm st1 d0 hpop2 hflm f hf h2
    exact ⟨by rw [h3, h1], h4⟩


lemma leafAtD_fields (tb tb2 : PTab) (hl1 : tb2.l1 = tb.l1) (hl0 : tb2.l0 = tb.l0)
    (g : Nat → Nat) (hlf : tb2.leaf = g) (q : Nat) :
    leafAtD tb2 q = if (l0At tb (q / 512)).isSome then some (g q) else none := by
  unfold leafAtD l0At
  rw [hl1, hl0, hlf]

lemma dirCount_fields (b : Nat) (tb tb2 : PTab) (hroot : tb2.root = tb.root)
    (hl1 : tb2.l1 = tb.l1) (hl0 : tb2.l0 = tb.l0) (f : Nat) :
    dirCount b tb2 f = dirCount b tb f := by
  unfold dirCount
  rw [hroot, hl1]
  have hoc : optCount (l0Slots b) (l0At tb2) f = optCount (l0Slots b) (l0At tb) f := by
    refine optCount_congr f ?_
    intro j hj
    unfold l0At
    rw [hl1, hl0]
  omega

/-- Everything one continue-iteration of the faithful uvmcopy loop
does: the invariant, the freelist well-formedness and the frame
validity of the source leaves are preserved, freelists only shrink, the
source table keeps its directories and all other leaves, a live source
page ends as the mkCow leaf on both sides, and the refcount entry of a
valid frame sitting on no freelist moves exactly by whether the copied
page targets it. -/
lemma uvmcopyStepA_master (kend cpu b : Nat) (hk : kend ≤ PHYSTOP) (hcpu : cpu < NCPU)
    (old new : PTab) (rest : List PTab) (st : MState) (i : Nat)
    (hib : i < b) (hmax : PGSIZE * i < MAXVA)
    (hok : ptFramesOk kend (leafAtD old)) (hfl : freelistsOk kend st)
    (hinv : InvD kend b st (old :: new :: rest))
    (o1 n1 : PTab) (st1 : MState)
    (hstep : uvmcopyStepA kend cpu old new st i = some (Sum.inl (o1, n1, st1))) :
    InvD kend b st1 (o1 :: n1 :: rest) ∧
    freelistsOk kend st1 ∧
    (∀ c2, List.IsSuffix (st1.freelist c2) (st.freelist c2)) ∧
    ptFramesOk kend (leafAtD o1) ∧
    o1.root = old.root ∧ o1.l1 = old.l1 ∧ o1.l0 = old.l0 ∧ n1.root = new.root ∧
    (∀ p, p ≠ i → o1.leaf p = old.leaf p) ∧
    (∀ q v, q ≠ i → leafAtD new q = some v → leafAtD n1 q = some v) ∧
    (leafAtD old i = none → o1 = old ∧ n1 = new ∧ st1 = st) ∧
    (∀ pte, leafAtD old i = some pte → pteHas pte PTE_V = false →
      o1 = old ∧ n1 = new ∧ st1 = st) ∧
    (∀ pte, leafAtD old i = some pte → pteHas pte PTE_V = true →
      leafAtD o1 i = some (mkCow pte) ∧ leafAtD n1 i = some (mkCow pte) ∧
      (∀ f, validFrame kend f → freelistCount st f = 0 →
        st1.refcnt (kalloc_refcnt_idx kend f) =
          st.refcnt (kalloc_refcnt_idx kend f) +
            (if pte2pa pte = f then 1 else 0) ∧
        freelistCount st1 f = 0)) := by
  unfold uvmcopyStepA at hstep
  rw [if_neg (Nat.not_le.2 hmax)] at hstep
  cases hl : leafAtD old i with
  | none =>
    rw [hl] at hstep
    simp only [Option.some.injEq, Sum.inl.injEq, Prod.mk.injEq] at hstep
    obtain ⟨rfl, rfl, rfl⟩ := hstep
    exact ⟨hinv, hfl, fun c2 => List.suffix_refl _, hok, rfl, rfl, rfl, rfl,
      fun p hp => rfl, fun q v hq hv => hv, fun _ => ⟨rfl, rfl, rfl⟩,
      fun pte hpte hv => ⟨rfl, rfl, rfl⟩,
      fun pte hpte => absurd hpte (by simp)⟩
  | some pte =>
    rw [hl] at hstep
    dsimp only at hstep
    by_cases hv : pteHas pte PTE_V = true
    case neg =>
      have hvf : pteHas pte PTE_V = false := by simpa using hv
      rw [if_pos hvf] at hstep
      simp only [Option.some.injEq, Sum.inl.injEq, Prod.mk.injEq] at hstep
      obtain ⟨rfl, rfl, rfl⟩ := hstep
      refine ⟨hinv, hfl, fun c2 => List.suffix_refl _, hok, rfl, rfl, rfl, rfl,
        fun p hp => rfl, fun q v hq hv2 => hv2, fun hcontra => ⟨rfl, rfl, rfl⟩,
        fun pte2 h12 hv2 => ⟨rfl, rfl, rfl⟩, ?_⟩
      intro pte2 h13 hv2
      obtain rfl := Option.some.inj h13
      exact absurd (hvf.symm.trans hv2) (by decide)
    case pos =>
      rw [if_neg (by simp [hv])] at hstep
      rw [mappagesA_single kend cpu new i (pte2pa pte) (cowFlags pte) st hmax] at hstep
      unfold mappagesPutA at hstep
      cases hw : walkAlloc kend cpu new (PGSIZE * i) st with
      | none =>
        rw [hw] at hstep
        exact absurd hstep (by simp)
      | some r =>
        obtain ⟨okb, tbW, stx⟩ := r
        rw [hw] at hstep
        cases okb with
        | false =>
          dsimp only at hstep
          cases hu : uvmunmapA kend cpu tbW 0 (PGSIZE * i) true stx with
          | none =>
            rw [hu] at hstep
            exact absurd hstep (by simp)
          | some r2 =>
            obtain ⟨n2, st2⟩ := r2
            rw [hu] at hstep
            exact absurd hstep (by simp)
        | true =>
          dsimp only at hstep
          by_cases hrv : pteHas (tbW.leaf i) PTE_V = true
          · rw [if_pos hrv] at hstep
            exact absurd hstep (by simp)
          have hrv2 : pteHas (tbW.leaf i) PTE_V = false := by simpa using hrv
          rw [if_neg (by simp [hrv2])] at hstep
          dsimp only at hstep
          rw [uvmunmapA_single kend cpu old i false stx hmax] at hstep
          by_cases hnl : pteFlags pte = PTE_V
          · rw [uvmunmapStepA_panic kend cpu old stx i false pte hl hv hnl hmax]
              at hstep
            exact absurd hstep (by simp)
          rw [uvmunmapStepA_nofree kend cpu old stx i pte hl hv hnl hmax] at hstep
          dsimp only at hstep
          obtain ⟨h0old, -⟩ := leafAtD_some old i pte hl
          have h0old1 : (l0At { old with leaf := Function.update old.leaf i 0 }
              (i / 512)).isSome = true := h0old
          have hnv1 : pteHas (({ old with
              leaf := Function.update old.leaf i 0 }).leaf i) PTE_V = false := by
            show pteHas (Function.update old.leaf i 0 i) PTE_V = false
            rw [Function.update_same]
            decide
          rw [mappagesA_single kend cpu _ i (pte2pa pte) (cowFlags pte) stx hmax,
            mappagesPutA_present kend cpu _ i (pte2pa pte) (cowFlags pte) stx hmax
              h0old1 hnv1] at hstep
          dsimp only at hstep
          simp only [Option.some.injEq, Sum.inl.injEq, Prod.mk.injEq] at hstep
          obtain ⟨ho, hn, hst⟩ := hstep
          obtain ⟨hwroot, hwlive, hwpres, hwokt, -⟩ :=
            walkAlloc_spec kend cpu hcpu new i st hmax true tbW stx hw
          obtain ⟨hwl, hwlv⟩ := hwokt rfl
          have hsufW := walkAlloc_suffix kend cpu hcpu new i st hmax true tbW stx hw
          have hflW : freelistsOk kend stx :=
            freelistsOk_of_suffix kend st stx hsufW hfl
          have hinvW : InvD kend b stx (old :: tbW :: rest) :=
            walkAlloc_invD kend cpu b hk hcpu old rest new i st hmax hib hfl hinv
              true tbW stx hw
          obtain ⟨hge, hlt⟩ := hok i pte hl hv
          have hpaval : validFrame kend (pte2pa pte) :=
            ⟨pte2pa_aligned pte, hge, hlt⟩
          obtain ⟨h0W, -⟩ := leafAtD_some tbW i (tbW.leaf i) hwl
          have ho1root : o1.root = old.root := by rw [← ho]
          have ho1l1 : o1.l1 = old.l1 := by rw [← ho]
          have ho1l0 : o1.l0 = old.l0 := by rw [← ho]
          have ho1leaf : o1.leaf = Function.update old.leaf i (mkCow pte) := by
            rw [← ho]
            show Function.update (Function.update old.leaf i 0) i
              (pa2pte (pte2pa pte) ||| cowFlags pte ||| PTE_V) = _
            rw [Function.update_idem]
            rfl
          have hn1root : n1.root = new.root := by
            rw [← hn]
            show tbW.root = new.root
            exact hwroot
          have hn1l1 : n1.l1 = tbW.l1 := by rw [← hn]
          have hn1l0 : n1.l0 = tbW.l0 := by rw [← hn]
          have hn1leaf : n1.leaf = Function.update tbW.leaf i (mkCow pte) := by
            rw [← hn]
            rfl
          have hst1refcnt : st1.refcnt = Function.update stx.refcnt
              (kalloc_refcnt_idx kend (pte2pa pte))
              (stx.refcnt (kalloc_refcnt_idx kend (pte2pa pte)) + 1) := by
            rw [← hst]
            rfl
          have hst1fl : st1.freelist = stx.freelist := by
            rw [← hst]
            rfl
          have ho1leafAtD : ∀ q, leafAtD o1 q =
              Function.update (leafAtD old) i (some (mkCow pte)) q := by
            intro q
            rw [leafAtD_fields old o1 ho1l1 ho1l0 _ ho1leaf q]
            by_cases hq : q = i
            · subst hq
              rw [Function.update_same, Function.update_same, if_pos h0old]
            · rw [Function.update_noteq hq, Function.update_noteq hq]
              rfl
          have hn1leafAtD : ∀ q, leafAtD n1 q =
              Function.update (leafAtD tbW) i (some (mkCow pte)) q := by
            intro q
            rw [leafAtD_fields tbW n1 hn1l1 hn1l0 _ hn1leaf q]
            by_cases hq : q = i
            · subst hq
              rw [Function.update_same, Function.update_same, if_pos h0W]
            · rw [Function.update_noteq hq, Function.update_noteq hq]
              rfl
          have ho1frames : ptFramesOk kend (leafAtD o1) := by
            intro q pte2 hq2 hv2
            rw [ho1leafAtD q] at hq2
            by_cases hq : q = i
            · subst hq
              rw [Function.update_same] at hq2
              obtain rfl := Option.some.inj hq2
              rw [mkCow_pa]
              exact ⟨hge, hlt⟩
            · rw [Function.update_noteq hq] at hq2
              exact hok q pte2 hq2 hv2
          have hsuf1 : ∀ c2, List.IsSuffix (st1.freelist c2) (st.freelist c2) := by
            intro c2
            rw [hst1fl]
            exact hsufW c2
          have hfl1 : freelistsOk kend st1 := by
            intro c hc pa2 hpa2
            rw [hst1fl] at hpa2
            exact hflW c hc pa2 hpa2
          have hInv1 : InvD kend b st1 (o1 :: n1 :: rest) := by
            intro j hj
            have hprev := hinvW j hj
            have hpc1 : pageCount b (leafAtD o1) (frameAt kend j) =
                pageCount b (leafAtD old) (frameAt kend j) := by
              refine pageCount_congr_live ?_
              intro q hq
              rw [ho1leafAtD q]
              by_cases hqi : q = i
              · subst hqi
                rw [Function.update_same, hl, pteLiveAt_mkCow pte _ hv]
              · rw [Function.update_noteq hqi]
            have hdead : pteLiveAt (leafAtD tbW i) (frameAt kend j) = false := by
              rw [hwl]
              exact pteLiveAt_dead _ _ hrv2
            have hc2 := pageCount_update b i hib (leafAtD tbW) (some (mkCow pte))
              (frameAt kend j)
            rw [hdead, if_neg (by decide : ¬ (false = true))] at hc2
            have hc1 : pageCount b (leafAtD n1) (frameAt kend j) =
                pageCount b (Function.update (leafAtD tbW) i (some (mkCow pte)))
                  (frameAt kend j) :=
              pageCount_congr (fun q hq => hn1leafAtD q) _
            have hdco : dirCount b o1 (frameAt kend j) =
                dirCount b old (frameAt kend j) :=
              dirCount_fields b old o1 ho1root ho1l1 ho1l0 _
            have hdcn : dirCount b n1 (frameAt kend j) =
                dirCount b tbW (frameAt kend j) :=
              dirCount_fields b tbW n1 (by rw [← hn]) hn1l1 hn1l0 _
            have hflc : freelistCount st1 (frameAt kend j) =
                freelistCount stx (frameAt kend j) :=
              freelistCount_congr stx st1 hst1fl _
            have hcens := hprev.1
            rw [leafCountD_cons, leafCountD_cons, dirCountAll_cons, dirCountAll_cons]
              at hcens
            rw [leafCountD_cons, leafCountD_cons, dirCountAll_cons, dirCountAll_cons]
            by_cases hFp : frameAt kend j = pte2pa pte
            · have hr1 : refcntOf kend st1 (frameAt kend j) =
                  refcntOf kend stx (frameAt kend j) + 1 := by
                unfold refcntOf
                rw [hst1refcnt, hFp, Function.update_same]
              have hlive1 : pteLiveAt (some (mkCow pte)) (frameAt kend j) = true := by
                rw [pteLiveAt_mkCow pte _ hv]
                exact pteLiveAt_target hv hFp.symm
              have hppos : 1 ≤ pageCount b (leafAtD old) (frameAt kend j) := by
                refine pageCount_pos b i hib _ _ ?_
                rw [hl]
                exact pteLiveAt_target hv hFp.symm
              have hone : (if pteLiveAt (some (mkCow pte)) (frameAt kend j) = true
                  then 1 else 0) = 1 := by simp [hlive1]
              rw [hone] at hc2
              have hge1 : 1 ≤ refcntOf kend stx (frameAt kend j) := by omega
              constructor
              · rw [hpc1, hc1, hdco, hdcn, hr1]
                omega
              · rw [hflc, hr1]
                have h2 := hprev.2
                rw [if_neg (by omega), h2, if_neg (by omega)]
            · have hr2 : refcntOf kend st1 (frameAt kend j) =
                  refcntOf kend stx (frameAt kend j) := by
                unfold refcntOf
                rw [hst1refcnt, Function.update_noteq
                  (validFrame_idx_inj kend hk (frameAt kend j) (pte2pa pte)
                    (validFrame_frameAt kend j hj) hpaval hFp)]
              have hzero : (if pteLiveAt (some (mkCow pte)) (frameAt kend j) = true
                  then 1 else 0) = 0 := by
                rw [pteLiveAt_mkCow pte _ hv,
                  pteLiveAt_not_target (fun hc => hFp hc.symm)]
                simp
              rw [hzero] at hc2
              constructor
              · rw [hpc1, hc1, hdco, hdcn, hr2]
                omega
              · rw [hflc, hr2]
                exact hprev.2
          have hrefclause : ∀ f, validFrame kend f → freelistCount st f = 0 →
              st1.refcnt (kalloc_refcnt_idx kend f) =
                st.refcnt (kalloc_refcnt_idx kend f) +
                  (if pte2pa pte = f then 1 else 0) ∧
              freelistCount st1 f = 0 := by
            intro f hfv hf0
            obtain ⟨hw1, hw2⟩ := walkAlloc_skip kend cpu hk hcpu new i st hmax hfl
              true tbW stx hw f hfv hf0
            constructor
            · rw [hst1refcnt]
              by_cases hpf : pte2pa pte = f
              · rw [if_pos hpf, hpf, Function.update_same, hw1]
              · rw [if_neg hpf, Function.update_noteq
                  (validFrame_idx_inj kend hk f (pte2pa pte) hfv hpaval
                    (fun hc => hpf hc.symm)), hw1]
                omega
            · rw [freelistCount_congr stx st1 hst1fl f]
              exact hw2
          refine ⟨hInv1, hfl1, hsuf1, ho1frames, ho1root, ho1l1, ho1l0, hn1root,
            ?_, ?_, ?_, ?_, ?_⟩
          · intro p hp
            rw [ho1leaf, Function.update_noteq hp]
          · intro q v hq hv2
            have h2 := hwpres q v hv2
            rw [hn1leafAtD q, Function.update_noteq hq]
            exact h2
          · intro hcontra
            exact absurd hcontra (by simp)
          · intro pte2 h12 hv2
            obtain rfl := Option.some.inj h12
            exact absurd (hv.symm.trans hv2) (by decide)
          · intro pte2 h13 hv2
            obtain rfl := Option.some.inj h13
            exact ⟨by rw [ho1leafAtD i, Function.update_same],
              by rw [hn1leafAtD i, Function.update_same], hrefclause⟩


/-- Everything a successful faithful uvmcopy loop over the pages
[i, i+cnt) does: the invariant is preserved, freelists only shrink, the
source keeps its directories, leaves outside the window persist on both
sides, every live source page in the window ends as the mkCow leaf on
both sides, and the refcount entry of a valid frame off the freelists
grows exactly by the number of live window pages targeting it. -/
lemma uvmcopyGoA_master (kend cpu b : Nat) (hk : kend ≤ PHYSTOP) (hcpu : cpu < NCPU)
    (hbm : PGSIZE * b ≤ MAXVA) :
    ∀ cnt (old new : PTab) (rest : List PTab) (st : MState) (i : Nat)
      (o n : PTab) (st2 : MState),
      i + cnt ≤ b →
      ptFramesOk kend (leafAtD old) → freelistsOk kend st →
      InvD kend b st (old :: new :: rest) →
      uvmcopyGoA kend cpu old new st i cnt = some (0, o, n, st2) →
      InvD kend b st2 (o :: n :: rest) ∧
      (∀ c2, List.IsSuffix (st2.freelist c2) (st.freelist c2)) ∧
      o.root = old.root ∧ o.l1 = old.l1 ∧ o.l0 = old.l0 ∧ n.root = new.root ∧
      (∀ p, p < i ∨ i + cnt ≤ p → o.leaf p = old.leaf p) ∧
      (∀ q v, q < i ∨ i + cnt ≤ q → leafAtD new q = some v → leafAtD n q = some v) ∧
      (∀ p pte, i ≤ p → p < i + cnt → leafAtD old p = some pte →
        pteHas pte PTE_V = true →
        leafAtD o p = some (mkCow pte) ∧ leafAtD n p = some (mkCow pte)) ∧
      (∀ f, validFrame kend f → freelistCount st f = 0 →
        st2.refcnt (kalloc_refcnt_idx kend f) =
          st.refcnt (kalloc_refcnt_idx kend f) + liveAdds (leafAtD old) i cnt f ∧
        freelistCount st2 f = 0) := by
  intro cnt
  induction cnt with
  | zero =>
    intro old new rest st i o n st2 hib hok hfl hinv hgo
    unfold uvmcopyGoA at hgo
    simp only [Option.some.injEq, Prod.mk.injEq] at hgo
    obtain ⟨-, rfl, rfl, rfl⟩ := hgo
    refine ⟨hinv, fun c2 => List.suffix_refl _, rfl, rfl, rfl, rfl,
      fun p hp => rfl, fun q v hq hv => hv,
      fun p pte h1 h2 => absurd h2 (by omega),
      fun f hfv hf0 => ⟨by simp [liveAdds], hf0⟩⟩
  | succ cnt ih =>
    intro old new rest st i o n st2 hib hok hfl hinv hgo
    unfold uvmcopyGoA at hgo
    cases hstep : uvmcopyStepA kend cpu old new st i with
    | none =>
      rw [hstep] at hgo
      exact absurd hgo (by simp)
    | some r =>
      rw [hstep] at hgo
      cases r with
      | inr r2 =>
        obtain ⟨o2, n2, st3⟩ := r2
        dsimp only at hgo
        simp only [Option.some.injEq, Prod.mk.injEq] at hgo
        exact absurd hgo.1 (by decide)
      | inl r1 =>
        obtain ⟨o1, n1, st3⟩ := r1
        dsimp only at hgo
        have hmax : PGSIZE * i < MAXVA := by
          have hlt : PGSIZE * i < PGSIZE * b := by
            simp only [PGSIZE]
            omega
          omega
        obtain ⟨hS1, hS2, hS3, hS4, hS5, hS6, hS7, hS8, hS9, hS10, hS11, hS12, hS13⟩ :=
          uvmcopyStepA_master kend cpu b hk hcpu old new rest st i (by omega) hmax
            hok hfl hinv o1 n1 st3 hstep
        obtain ⟨hG1, hG2, hG3, hG4, hG5, hG6, hG7, hG8, hG9, hG10⟩ :=
          ih o1 n1 rest st3 (i + 1) o n st2 (by omega) hS4 hS2 hS1 hgo
        have holdleaf : ∀ p, p ≠ i → leafAtD o1 p = leafAtD old p := by
          intro p hp
          rw [leafAtD_fields old o1 hS6 hS7 o1.leaf rfl p, hS9 p hp]
          rfl
        have hkeep : ∀ p2, p2 < i + 1 ∨ i + 1 + cnt ≤ p2 →
            leafAtD o p2 = leafAtD o1 p2 := by
          intro p2 hp2
          rw [leafAtD_fields o1 o hG4 hG5 o.leaf rfl p2, hG7 p2 hp2]
          rfl
        refine ⟨hG1, fun c2 => (hG2 c2).trans (hS3 c2),
          hG3.trans hS5, hG4.trans hS6, hG5.trans hS7, hG6.trans hS8,
          ?_, ?_, ?_, ?_⟩
        · intro p hp
          rcases hp with hp | hp
          · exact (hG7 p (Or.inl (by omega))).trans (hS9 p (by omega))
          · exact (hG7 p (Or.inr (by omega))).trans (hS9 p (by omega))
        · intro q v hq hv
          rcases hq with hq | hq
          · exact hG8 q v (Or.inl (by omega)) (hS10 q v (by omega) hv)
          · exact hG8 q v (Or.inr (by omega)) (hS10 q v (by omega) hv)
        · intro p pte h1 h2 hpte hv
          by_cases hpi : p = i
          · subst hpi
            obtain ⟨ha, hb, -⟩ := hS13 pte hpte hv
            constructor
            · rw [hkeep p (Or.inl (by omega))]
              exact ha
            · exact hG8 p (mkCow pte) (Or.inl (by omega)) hb
          · exact hG9 p pte (by omega) (by omega)
              ((holdleaf p hpi).trans hpte) hv
        · intro f hfv hf0
          cases hli : leafAtD old i with
          | none =>
            obtain ⟨ho, hn, hst⟩ := hS11 hli
            obtain ⟨hA, hB⟩ := hG10 f hfv (by rw [hst]; exact hf0)
            refine ⟨?_, hB⟩
            rw [hA, ho, hst, liveAdds_succ]
            have h0 : (if pteLiveAt (leafAtD old i) f = true then 1 else 0) = 0 := by
              rw [hli]
              simp [pteLiveAt]
            omega
          | some pte2 =>
            by_cases hv2 : pteHas pte2 PTE_V = true
            · obtain ⟨-, -, hrc⟩ := hS13 pte2 hli hv2
              obtain ⟨hA1, hB1⟩ := hrc f hfv hf0
              obtain ⟨hA, hB⟩ := hG10 f hfv hB1
              refine ⟨?_, hB⟩
              rw [hA, hA1, liveAdds_succ,
                liveAdds_congr (leafAtD o1) (leafAtD old) (i + 1) cnt f
                  (fun p hp1 hp2 => holdleaf p (by omega))]
              have heq : (if pteLiveAt (leafAtD old i) f = true then 1 else 0) =
                  (if pte2pa pte2 = f then 1 else 0) := by
                rw [hli]
                by_cases hpf : pte2pa pte2 = f
                · rw [if_pos hpf, pteLiveAt_target hv2 hpf]
                  simp
                · rw [if_neg hpf, pteLiveAt_not_target hpf]
                  simp
              omega
            · have hv2f : pteHas pte2 PTE_V = false := by simpa using hv2
              obtain ⟨ho, hn, hst⟩ := hS12 pte2 hli hv2f
              obtain ⟨hA, hB⟩ := hG10 f hfv (by rw [hst]; exact hf0)
              refine ⟨?_, hB⟩
              rw [hA, ho, hst, liveAdds_succ]
              have h0 : (if pteLiveAt (leafAtD old i) f = true then 1 else 0) = 0 := by
                rw [hli, pteLiveAt_dead pte2 f hv2f]
                simp
              omega


/-- One freeing uvmunmap iteration over the faithful layer preserves
the directory-census invariant, the frame well-formedness of the table
and the freelist well-formedness. -/
lemma uvmunmapStepA_inv (kend cpu b : Nat) (hk : kend ≤ PHYSTOP) (hcpu : cpu < NCPU)
    (tb : PTab) (rest : List PTab) (st : MState) (i : Nat) (hib : i < b)
    (hok : ptFramesOk kend (leafAtD tb)) (hfl : freelistsOk kend st)
    (hinv : InvD kend b st (tb :: rest))
    (tb1 : PTab) (st1 : MState)
    (hstep : uvmunmapStepA kend cpu tb st i true = some (tb1, st1)) :
    InvD kend b st1 (tb1 :: rest) ∧ ptFramesOk kend (leafAtD tb1) ∧
    freelistsOk kend st1 := by
  unfold uvmunmapStepA at hstep
  by_cases hmax : MAXVA ≤ PGSIZE * i
  · rw [if_pos hmax] at hstep
    exact absurd hstep (by simp)
  rw [if_neg hmax] at hstep
  cases hpt : leafAtD tb i with
  | none =>
    rw [hpt] at hstep
    simp only [Option.some.injEq, Prod.mk.injEq] at hstep
    obtain ⟨rfl, rfl⟩ := hstep
    exact ⟨hinv, hok, hfl⟩
  | some pte =>
    rw [hpt] at hstep
    dsimp only at hstep
    by_cases hv : pteHas pte PTE_V
    case neg =>
      rw [if_pos (by simpa using hv)] at hstep
      simp only [Option.some.injEq, Prod.mk.injEq] at hstep
      obtain ⟨rfl, rfl⟩ := hstep
      exact ⟨hinv, hok, hfl⟩
    case pos =>
      rw [if_neg (by simp [hv])] at hstep
      by_cases hleaf : pteFlags pte = PTE_V
      · rw [if_pos hleaf] at hstep
        exact absurd hstep (by simp)
      rw [if_neg hleaf, if_pos rfl] at hstep
      obtain ⟨hge, hlt⟩ := hok i pte hpt hv
      obtain ⟨j, hj, hpa⟩ := frame_decomp kend (pte2pa pte) hk hge hlt (pte2pa_aligned pte)
      have hl0 : (l0At tb (i / 512)).isSome = true := by
        unfold leafAtD at hpt
        by_cases h : (l0At tb (i / 512)).isSome
        · exact h
        · rw [if_neg h] at hpt
          exact absurd hpt (by simp)
      have hrval : refcntOf kend st (frameAt kend j) = st.refcnt j := by
        unfold refcntOf
        rw [idx_frameAt kend j hk hj]
      rcases hdec : kalloc_refcnt_dec kend cpu (pte2pa pte) st with _ | st2
      · rw [hdec] at hstep
        exact absurd hstep (by simp)
      rw [hdec] at hstep
      simp only [Option.some.injEq, Prod.mk.injEq] at hstep
      obtain ⟨rfl, rfl⟩ := hstep
      obtain ⟨hpos1, href, hpush, hsame⟩ :=
        kalloc_refcnt_dec_spec kend cpu (pte2pa pte) st st2 hdec
      have hidx : kalloc_refcnt_idx kend (pte2pa pte) = j := by
        rw [hpa]
        exact idx_frameAt kend j hk hj
      rw [hidx] at hpos1 href hpush hsame
      have hup : ∀ q, leafAtD { tb with leaf := Function.update tb.leaf i 0 } q =
          Function.update (leafAtD tb) i (some 0) q := leafAtD_update tb i 0 hl0
      refine ⟨?_, ?_, ?_⟩
      · intro i2 hi2
        have hprev := hinv i2 hi2
        have hprevj := hinv j hj
        have hrefval := refcntOf_update_frame kend hk st st2 j hj
          (st.refcnt j - 1) (by rw [idx_frameAt kend j hk hj]; exact href) i2 hi2
        have hpc0 := pageCount_update b i hib (leafAtD tb) (some 0) (frameAt kend i2)
        rw [pteLiveAt_some_zero] at hpc0
        simp only [if_neg (Bool.false_ne_true)] at hpc0
        have hpceq : pageCount b (leafAtD { tb with leaf := Function.update tb.leaf i 0 })
            (frameAt kend i2) =
            pageCount b (Function.update (leafAtD tb) i (some 0)) (frameAt kend i2) :=
          pageCount_congr (fun q hq => hup q) _
        rw [leafCountD_cons, dirCountAll_cons] at hprev
        rw [leafCountD_cons, dirCountAll_cons, dirCount_setleaf, hpceq]
        by_cases hij : i2 = j
        · subst hij
          rw [hpt, pteLiveAt_target hv hpa, if_pos rfl] at hpc0
          rw [hrefval, if_pos rfl]
          rw [hrval] at hprev
          by_cases hn1 : st.refcnt i2 = 1
          · have hcnt := freelistCount_push st st2 cpu (pte2pa pte) hcpu
              (frameAt kend i2) (hpush hn1)
            rw [if_pos hpa] at hcnt
            constructor
            · omega
            · rw [hcnt, if_pos (by omega), hprev.2, if_neg (by omega)]
          · have hcnt := freelistCount_congr st st2 (hsame hn1) (frameAt kend i2)
            constructor
            · omega
            · rw [hcnt, if_neg (by omega), hprev.2, if_neg (by omega)]
        · have hne : pte2pa pte ≠ frameAt kend i2 := by
            rw [hpa]
            intro hcontra
            exact hij (frameAt_inj hcontra).symm
          rw [hpt, pteLiveAt_not_target hne, if_neg (Bool.false_ne_true)] at hpc0
          rw [hrefval, if_neg hij]
          have hcnt : freelistCount st2 (frameAt kend i2) =
              freelistCount st (frameAt kend i2) := by
            by_cases hn1 : st.refcnt j = 1
            · have h2 := freelistCount_push st st2 cpu (pte2pa pte) hcpu
                (frameAt kend i2) (hpush hn1)
              rw [if_neg hne] at h2
              omega
            · exact freelistCount_congr st st2 (hsame hn1) (frameAt kend i2)
          constructor
          · omega
          · rw [hcnt]
            exact hprev.2
      · intro q pte2 h1 h2
        rw [hup q] at h1
        by_cases hqi : q = i
        · subst hqi
          rw [Function.update_same] at h1
          cases h1
          exact absurd h2 (by simp [pteHas])
        · rw [Function.update_noteq hqi] at h1
          exact hok q pte2 h1 h2
      · intro c hc pa2 hmem
        by_cases hn1 : st.refcnt j = 1
        · have hfc := hpush hn1 c
          rw [hfc] at hmem
          by_cases hccpu : c = cpu
          · subst hccpu
            rw [Function.update_same] at hmem
            rcases List.mem_cons.1 hmem with rfl | hmem2
            · exact ⟨pte2pa_aligned pte, hge, hlt⟩
            · exact hfl _ hc _ hmem2
          · rw [Function.update_noteq hccpu] at hmem
            exact hfl c hc pa2 hmem
        · rw [hsame hn1] at hmem
          exact hfl c hc pa2 hmem

lemma uvmunmapGoA_inv (kend cpu b : Nat) (hk : kend ≤ PHYSTOP) (hcpu : cpu < NCPU)
    (rest : List PTab) :
    ∀ count tb st i, i + count ≤ b →
      ptFramesOk kend (leafAtD tb) → freelistsOk kend st →
      InvD kend b st (tb :: rest) →
      ∀ tb1 st1, uvmunmapGoA kend cpu tb st i true count = some (tb1, st1) →
        InvD kend b st1 (tb1 :: rest) ∧ ptFramesOk kend (leafAtD tb1) ∧
        freelistsOk kend st1 := by
  intro count
  induction count with
  | zero =>
    intro tb st i hle hok hfl hinv tb1 st1 hgo
    unfold uvmunmapGoA at hgo
    simp only [Option.some.injEq, Prod.mk.injEq] at hgo
    obtain ⟨rfl, rfl⟩ := hgo
    exact ⟨hinv, hok, hfl⟩
  | succ n ih =>
    intro tb st i hle hok hfl hinv tb1 st1 hgo
    unfold uvmunmapGoA at hgo
    rcases hstep : uvmunmapStepA kend cpu tb st i true with _ | ⟨tb2, st2⟩
    · rw [hstep] at hgo
      exact absurd hgo (by simp)
    rw [hstep] at hgo
    have h1 := uvmunmapStepA_inv kend cpu b hk hcpu tb rest st i (by omega) hok hfl hinv
      tb2 st2 hstep
    exact ih tb2 st2 (i + 1) (by omega) h1.2.1 h1.2.2 h1.1 tb1 st1 hgo

/-- uvmunmap with frame freeing over the faithful layer preserves the
directory-census invariant, provided its page range stays below the
b-page census bound and the machine constants are respected. -/
lemma uvmunmapA_inv (kend cpu b : Nat) (tb : PTab) (rest : List PTab) (st : MState)
    (va size : Nat) (tb1 : PTab) (st1 : MState)
    (hk : kend ≤ PHYSTOP) (hcpu : cpu < NCPU) (hsz : 0 < size)
    (hbound : va + size ≤ PGSIZE * b) (hb : PGSIZE * b ≤ MAXVA)
    (hok : ptFramesOk kend (leafAtD tb)) (hfl : freelistsOk kend st)
    (hinv : InvD kend b st (tb :: rest))
    (hgo : uvmunmapA kend cpu tb va size true st = some (tb1, st1)) :
    InvD kend b st1 (tb1 :: rest) ∧ ptFramesOk kend (leafAtD tb1) ∧
    freelistsOk kend st1 := by
  unfold uvmunmapA at hgo
  dsimp only at hgo
  have hMU : MAXVA < U64 := by decide
  have hU : va + size - 1 < U64 := by omega
  have hmod : (va + size + (U64 - 1)) % U64 = va + size - 1 := by
    have h1 : va + size + (U64 - 1) = (va + size - 1) + U64 := by
      have : 0 < U64 := by decide
      omega
    rw [h1, Nat.add_mod_right, Nat.mod_eq_of_lt hU]
  rw [hmod] at hgo
  have hPpos : 0 < PGSIZE := by norm_num [PGSIZE]
  have hdown : pgrounddown va / PGSIZE = va / PGSIZE := by
    unfold pgrounddown
    exact Nat.mul_div_cancel _ hPpos
  have hq : va / PGSIZE ≤ (va + size - 1) / PGSIZE := Nat.div_le_div_right (by omega)
  have hqm : va / PGSIZE * PGSIZE ≤ (va + size - 1) / PGSIZE * PGSIZE :=
    Nat.mul_le_mul_right _ hq
  have hfit : (va + size - 1) / PGSIZE * PGSIZE < U64 :=
    Nat.lt_of_le_of_lt (Nat.div_mul_le_self _ _) hU
  have hcnt : (pgrounddown (va + size - 1) + U64 - pgrounddown va) % U64 / PGSIZE + 1 =
      (va + size - 1) / PGSIZE - va / PGSIZE + 1 := by
    unfold pgrounddown
    have heq : (va + size - 1) / PGSIZE * PGSIZE + U64 - va / PGSIZE * PGSIZE =
        ((va + size - 1) / PGSIZE - va / PGSIZE) * PGSIZE + U64 := by
      rw [Nat.sub_mul]
      omega
    rw [heq, Nat.add_mod_right, Nat.mod_eq_of_lt (by
      have := Nat.sub_le ((va + size - 1) / PGSIZE) (va / PGSIZE)
      have h2 : ((va + size - 1) / PGSIZE - va / PGSIZE) * PGSIZE ≤
          (va + size - 1) / PGSIZE * PGSIZE := Nat.mul_le_mul_right _ this
      omega)]
    rw [Nat.mul_div_cancel _ hPpos]
  rw [hdown, hcnt] at hgo
  have hq2 : (va + size - 1) / PGSIZE < b := by
    rw [Nat.div_lt_iff_lt_mul hPpos]
    have : PGSIZE * b = b * PGSIZE := Nat.mul_comm _ _
    omega
  exact uvmunmapGoA_inv kend cpu b hk hcpu rest _ tb st (va / PGSIZE)
    (by omega) hok hfl hinv tb1 st1 hgo


/-- Every live leaf of the witness parent table targets the refcounted
range. -/
lemma woldA_framesOk : ptFramesOk 0x87FF8000 (leafAtD woldA) := by
  intro p pte h hv
  by_cases hp : p / 512 = 0
  · have hl0 : l0At woldA (p / 512) = some 0x87FFA000 := by
      rw [hp]
      rfl
    have hleaf : leafAtD woldA p = some (woldA.leaf p) :=
      leafAtD_present woldA p (by rw [hl0]; rfl)
    rw [hleaf] at h
    obtain rfl := Option.some.inj h
    by_cases hp0 : p = 0
    · subst hp0
      exact ⟨by decide, by decide⟩
    · have hz : woldA.leaf p = 0 := by
        show (if p = 0 then pa2pte 0x87FFB000 + 23 else 0) = 0
        rw [if_neg hp0]
      rw [hz] at hv
      exact absurd hv (by decide)
  · have hnone : leafAtD woldA p = none := by
      refine leafAtD_missing woldA p ?_
      have hl0 : woldA.l0 (p / 512) = none := by
        show (if p / 512 = 0 then some 0x87FFA000 else none) = none
        rw [if_neg hp]
      unfold l0At
      rw [hl0, ite_self]
      decide
    rw [hnone] at h
    exact absurd h (by simp)

/-- C1 (corrected): the refcount-integrity invariant that the code
preserves.  Two repairs to the claim are needed.  First, the freelist
clause must be strengthened to "a frame with refcount 0 occurs exactly
once across the CPU freelists and a frame with positive refcount not at
all".  Second, the census must count, besides the live leaf PTEs, the
page-table directory frames themselves: walk(alloc = 1) inside mappages
allocates interior pages from the refcounted range, and each such frame
holds refcount 1 with no leaf PTE pointing at it.  So amended, the
invariant is preserved by the compound operations uvmunmap with frame
freeing and a successful uvmcopy — the latter over the faithful layer in
which mappages really allocates the child's directory pages.  It is not
preserved by each bare primitive the claim lists: kalloc_refcnt_add
alone raises the refcount side without adding a leaf (see the
counterexample theorem). -/
theorem refcount_invariant_preservation (kend cpu b : Nat)
    (hk : kend ≤ PHYSTOP) (hcpu : cpu < NCPU) (hb : PGSIZE * b ≤ MAXVA) :
    (∀ (tb : PTab) (rest : List PTab) (st : MState) (va size : Nat)
       (tb2 : PTab) (st2 : MState),
      0 < size → va + size ≤ PGSIZE * b →
      ptFramesOk kend (leafAtD tb) → freelistsOk kend st →
      InvD kend b st (tb :: rest) →
      uvmunmapA kend cpu tb va size true st = some (tb2, st2) →
      InvD kend b st2 (tb2 :: rest)) ∧
    (∀ (old new : PTab) (rest : List PTab) (st : MState) (sz : Nat)
       (o n : PTab) (st2 : MState),
      sz ≤ PGSIZE * b →
      ptFramesOk kend (leafAtD old) → freelistsOk kend st →
      InvD kend b st (old :: new :: rest) →
      uvmcopyA kend cpu old new sz st = some (0, o, n, st2) →
      InvD kend b st2 (o :: n :: rest)) := by
  constructor
  · intro tb rest st va size tb2 st2 hsz hbound hok hfl hinv hgo
    exact (uvmunmapA_inv kend cpu b tb rest st va size tb2 st2
      hk hcpu hsz hbound hb hok hfl hinv hgo).1
  · intro old new rest st sz o n st2 hbound hok hfl hinv hgo
    unfold uvmcopyA at hgo
    have hnp : 0 + npages sz ≤ b := by
      have hbound2 : sz ≤ 4096 * b := by simpa [PGSIZE] using hbound
      simp only [npages, PGSIZE]
      omega
    exact (uvmcopyGoA_master kend cpu b hk hcpu hb (npages sz) old new rest st 0
      o n st2 hnp hok hfl hinv hgo).1

/-- The preservation theorem instantiated at the eight-frame machine
with end symbol 0x87FF8000, CPU 0 and a one-page census.  The extra
conjuncts show its two clauses are concretely exercised: the
directory-census invariant holds in the wstA state over the two witness
tables, uvmunmapA completes there, and uvmcopyA completes successfully
— really allocating the child's two directory pages off the CPU-0
freelist on the way. -/
theorem refcount_invariant_preservation_witness :
    (0x87FF8000 ≤ PHYSTOP ∧ 0 < NCPU ∧ PGSIZE * 1 ≤ MAXVA ∧
      ptFramesOk 0x87FF8000 (leafAtD woldA) ∧
      freelistsOk 0x87FF8000 wstA ∧
      InvD 0x87FF8000 1 wstA [woldA, wnewA] ∧
      (uvmunmapA 0x87FF8000 0 woldA 0 PGSIZE true wstA).isSome = true ∧
      (uvmcopyA 0x87FF8000 0 woldA wnewA PGSIZE wstA).isSome = true) ∧
    ((∀ (tb : PTab) (rest : List PTab) (st : MState) (va size : Nat)
       (tb2 : PTab) (st2 : MState),
      0 < size → va + size ≤ PGSIZE * 1 →
      ptFramesOk 0x87FF8000 (leafAtD tb) → freelistsOk 0x87FF8000 st →
      InvD 0x87FF8000 1 st (tb :: rest) →
      uvmunmapA 0x87FF8000 0 tb va size true st = some (tb2, st2) →
      InvD 0x87FF8000 1 st2 (tb2 :: rest)) ∧
    (∀ (old new : PTab) (rest : List PTab) (st : MState) (sz : Nat)
       (o n : PTab) (st2 : MState),
      sz ≤ PGSIZE * 1 →
      ptFramesOk 0x87FF8000 (leafAtD old) → freelistsOk 0x87FF8000 st →
      InvD 0x87FF8000 1 st (old :: new :: rest) →
      uvmcopyA 0x87FF8000 0 old new sz st = some (0, o, n, st2) →
      InvD 0x87FF8000 1 st2 (o :: n :: rest))) :=
  ⟨⟨by decide, by decide, by decide, woldA_framesOk, by decide, by decide,
    by decide, by decide⟩,
   refcount_invariant_preservation 0x87FF8000 0 1 (by decide) (by decide) (by decide)⟩

/-- C2: the uvmcopy postcondition, over the faithful layer in which
mappages allocates the child's directory pages.  On success (return 0),
every source page below sz whose leaf is valid ends in both page tables
as the same leaf value mkCow pte: the same physical frame, W removed, C
set, V kept.  Every refcounted frame that is in use before the call
(not on any freelist — in particular every frame a live source leaf
targets, since mapped frames have positive refcount) has its refcount
grown by exactly the number of live source leaves below sz targeting it
(one increment per copied page) and stays off the freelists; and the
directory-census refcount invariant, which pins every shared frame's
refcount to its total census, is restored, the child's freshly
allocated directory pages included. -/
theorem uvmcopy_cow_postcondition (kend cpu b : Nat) (old new : PTab)
    (rest : List PTab) (sz : Nat) (st : MState) (o n : PTab) (st2 : MState)
    (hk : kend ≤ PHYSTOP) (hcpu : cpu < NCPU)
    (hsz : sz ≤ PGSIZE * b) (hb : PGSIZE * b ≤ MAXVA)
    (hok : ptFramesOk kend (leafAtD old)) (hfl : freelistsOk kend st)
    (hinv : InvD kend b st (old :: new :: rest))
    (hgo : uvmcopyA kend cpu old new sz st = some (0, o, n, st2)) :
    (∀ p pte, PGSIZE * p < sz → leafAtD old p = some pte →
      pteHas pte PTE_V = true →
      leafAtD o p = some (mkCow pte) ∧ leafAtD n p = some (mkCow pte) ∧
      pteHas (mkCow pte) PTE_W = false ∧ pteHas (mkCow pte) PTE_C = true ∧
      pteHas (mkCow pte) PTE_V = true ∧ pte2pa (mkCow pte) = pte2pa pte) ∧
    (∀ j, j < nframes kend → freelistCount st (frameAt kend j) = 0 →
      refcntOf kend st2 (frameAt kend j) =
        refcntOf kend st (frameAt kend j) +
          pageCount (npages sz) (leafAtD old) (frameAt kend j) ∧
      freelistCount st2 (frameAt kend j) = 0) ∧
    InvD kend b st2 (o :: n :: rest) := by
  unfold uvmcopyA at hgo
  have hnp : 0 + npages sz ≤ b := by
    have hsz2 : sz ≤ 4096 * b := by simpa [PGSIZE] using hsz
    simp only [npages, PGSIZE]
    omega
  obtain ⟨hG1, hG2, hG3, hG4, hG5, hG6, hG7, hG8, hG9, hG10⟩ :=
    uvmcopyGoA_master kend cpu b hk hcpu hb (npages sz) old new rest st 0
      o n st2 hnp hok hfl hinv hgo
  refine ⟨?_, ?_, hG1⟩
  · intro p pte hp hpte hv
    have hpn : p < npages sz := by
      simp only [npages, PGSIZE] at hp ⊢
      omega
    obtain ⟨h1, h2⟩ := hG9 p pte (by omega) (by omega) hpte hv
    exact ⟨h1, h2, mkCow_W pte, mkCow_C pte, mkCow_V pte, mkCow_pa pte⟩
  · intro j hj hf0
    obtain ⟨hA, hB⟩ := hG10 (frameAt kend j) (validFrame_frameAt kend j hj) hf0
    refine ⟨?_, hB⟩
    unfold refcntOf
    rw [hA, liveAdds_eq_pageCount]

/-- The postcondition theorem run on the concrete eight-frame machine:
copying the one-leaf parent table woldA into the empty child table
wnewA terminates with return 0 and the quadruple wresA — allocating the
child's level-1 and leaf directories off the CPU-0 freelist — and the
theorem yields the COW shape, the refcount increment of the shared data
frame and the restored invariant there. -/
theorem uvmcopy_cow_postcondition_witness :
    (0x87FF8000 ≤ PHYSTOP ∧ 0 < NCPU ∧ PGSIZE ≤ PGSIZE * 1 ∧
      PGSIZE * 1 ≤ MAXVA ∧ ptFramesOk 0x87FF8000 (leafAtD woldA) ∧
      freelistsOk 0x87FF8000 wstA ∧ InvD 0x87FF8000 1 wstA [woldA, wnewA] ∧
      uvmcopyA 0x87FF8000 0 woldA wnewA PGSIZE wstA =
        some (0, wresA.2.1, wresA.2.2.1, wresA.2.2.2)) ∧
    ((∀ p pte, PGSIZE * p < PGSIZE → leafAtD woldA p = some pte →
      pteHas pte PTE_V = true →
      leafAtD wresA.2.1 p = some (mkCow pte) ∧
      leafAtD wresA.2.2.1 p = some (mkCow pte) ∧
      pteHas (mkCow pte) PTE_W = false ∧ pteHas (mkCow pte) PTE_C = true ∧
      pteHas (mkCow pte) PTE_V = true ∧ pte2pa (mkCow pte) = pte2pa pte) ∧
    (∀ j, j < nframes 0x87FF8000 →
      freelistCount wstA (frameAt 0x87FF8000 j) = 0 →
      refcntOf 0x87FF8000 wresA.2.2.2 (frameAt 0x87FF8000 j) =
        refcntOf 0x87FF8000 wstA (frameAt 0x87FF8000 j) +
          pageCount (npages PGSIZE) (leafAtD woldA) (frameAt 0x87FF8000 j) ∧
      freelistCount wresA.2.2.2 (frameAt 0x87FF8000 j) = 0) ∧
    InvD 0x87FF8000 1 wresA.2.2.2 [wresA.2.1, wresA.2.2.1]) :=
  ⟨⟨by decide, by decide, by decide, by decide, woldA_framesOk, by decide,
    by decide, rfl⟩,
   uvmcopy_cow_postcondition 0x87FF8000 0 1 woldA wnewA [] PGSIZE wstA
     wresA.2.1 wresA.2.2.1 wresA.2.2.2 (by decide) (by decide) (by decide)
     (by decide) woldA_framesOk (by decide) (by decide) rfl⟩

end ExV6
